import Mathlib

/-!
Verification development for the resilient multi-transport RPC client of
`src/tools/re_agent/binja_mcp_client.py` (class `BinaryNinjaMCPClient`).

The Python source is shallowly embedded: JSON documents become the inductive
`Json`; Python truthiness, `x or y` chains, `in` substring tests and
`str.strip`/`str.isdigit`/`str.split` are modelled as executable Lean
functions over `String`/`List Char`; the HTTP helpers are an explicit
`Oracle` (the network boundary); the mutable client object becomes the
record `ClientState` passed explicitly.  JSON numbers are modelled as
integers (no claim involves floats); `time.time()` timestamps are `Nat`.
-/

/-- Character equality by code point, modelling Python `==` on single
characters.  All character work is routed through `Char.toNat` so proofs
reduce to arithmetic. -/
def chEq (a b : Char) : Bool := a.toNat == b.toNat

/-- Model of the default whitespace set of Python `str.strip()`
(space, tab, newline, carriage return, vertical tab, form feed). -/
def isPySpace (c : Char) : Bool :=
  c.toNat == 32 || c.toNat == 9 || c.toNat == 10 || c.toNat == 13 ||
  c.toNat == 11 || c.toNat == 12

/-- ASCII decimal digit test, modelling the characters accepted by
`str.isdigit` on the ASCII strings the claims quantify over. -/
def isDigitChar (c : Char) : Bool := 48 ≤ c.toNat && c.toNat ≤ 57

/-- Model of `p` being a leading segment of `l` (used for Python
`str.startswith`). -/
def beginsWith : List Char → List Char → Bool
  | [], _ => true
  | _ :: _, [] => false
  | a :: as, b :: bs => chEq a b && beginsWith as bs

/-- Model of the Python substring test `needle in hay` on char lists. -/
def containsSeq (needle : List Char) : List Char → Bool
  | [] => beginsWith needle []
  | c :: hs => beginsWith needle (c :: hs) || containsSeq needle hs

/-- Python `needle in hay` on strings. -/
def pyIn (needle hay : String) : Bool := containsSeq needle.data hay.data

/-- Python `s.startswith(p)`. -/
def pyStartsWith (p s : String) : Bool := beginsWith p.data s.data

/-- Model of Python `str.strip()` (no argument): drop leading and trailing
whitespace. -/
def pyStripList (l : List Char) : List Char :=
  ((l.dropWhile isPySpace).reverse.dropWhile isPySpace).reverse

/-- Python `s.strip()` on strings. -/
def pyStrip (s : String) : String := String.mk (pyStripList s.data)

/-- Truthiness of `s.strip()` as used in `if code.strip():` style tests. -/
def stripNonempty (s : String) : Bool := !(pyStripList s.data).isEmpty

/-- Model of Python `s.rstrip("/")`: drop every trailing slash. -/
def dropTrailingSlashes (s : String) : String :=
  String.mk ((s.data.reverse.dropWhile (fun c => chEq c '/')).reverse)

/-- Model of Python `s.split("_")` (single-character separator): the list of
segments between underscores, with empty segments kept. -/
def splitOnCharList (c : Char) : List Char → List (List Char)
  | [] => [[]]
  | x :: xs =>
    let r := splitOnCharList c xs
    if chEq x c then [] :: r else (x :: r.headD []) :: r.tail

/-- Last element of a nonempty segment list, modelling Python `[-1]`
indexing of a `split` result (`split` never returns an empty list). -/
def lastSeg : List (List Char) → List Char
  | [] => []
  | [x] => x
  | _ :: rest => lastSeg rest

/-- Numeric value of a digit string (most significant digit first). -/
def digitsToNat (l : List Char) : Nat :=
  l.foldl (fun acc c => acc * 10 + (c.toNat - 48)) 0

/-- Model of Python `int(s)` on the strings reachable in this client:
optional surrounding whitespace, an optional sign, then decimal digits;
anything else raises, modelled as `none`.  (Underscore digit grouping of
Python 3.6+ is unreachable here: every parsed segment comes after a
`split("_")` or an `isdigit()` check.) -/
def pyParseIntList (l0 : List Char) : Option Int :=
  let l := pyStripList l0
  match l with
  | [] => none
  | c :: rest =>
    if chEq c '-' then
      if !rest.isEmpty && rest.all isDigitChar then some (-(digitsToNat rest : Int)) else none
    else if chEq c '+' then
      if !rest.isEmpty && rest.all isDigitChar then some ((digitsToNat rest : Int)) else none
    else if (c :: rest).all isDigitChar then some ((digitsToNat (c :: rest) : Int)) else none

/-- Model of Python `str.isdigit()` for ASCII strings: nonempty and all
decimal digits. -/
def isdigitList (l : List Char) : Bool := !l.isEmpty && l.all isDigitChar

/-- Rendering of an integer exactly as Python `str(int)` does. -/
def intToStr (i : Int) : String :=
  if i < 0 then "-" ++ Nat.repr i.natAbs else Nat.repr i.natAbs

/-- ASCII lower-casing of one character, modelling Python `str.lower()` on
the ASCII identifiers appearing in this client. -/
def charLower (c : Char) : Char :=
  if 65 ≤ c.toNat && c.toNat ≤ 90 then Char.ofNat (c.toNat + 32) else c

/-- Python `s.lower()` for ASCII strings. -/
def pyLower (s : String) : String := String.mk (s.data.map charLower)

/-- Decoded JSON documents as ingested from the bridge.  Numbers are
modelled as integers; no claim involves float payloads. -/
inductive Json where
  | null : Json
  | bool (b : Bool) : Json
  | num (n : Int) : Json
  | str (s : String) : Json
  | arr (xs : List Json) : Json
  | obj (kvs : List (String × Json)) : Json

/-- First-match association lookup, modelling Python `dict.get` (dict keys
are unique, so first match is the match). -/
def lookupStr : List (String × Json) → String → Option Json
  | [], _ => none
  | (k, v) :: rest, key => if k == key then some v else lookupStr rest key

/-- Python `obj.get(key)`: `none` both for a missing key and for a
non-dict receiver (the call sites guard with `isinstance(obj, dict)`). -/
def Json.get : Json → String → Option Json
  | Json.obj kvs, key => lookupStr kvs key
  | _, _ => none

/-- Python truthiness of a decoded JSON value. -/
def Json.truthy : Json → Bool
  | Json.null => false
  | Json.bool b => b
  | Json.num n => n != 0
  | Json.str s => s != ""
  | Json.arr xs => !xs.isEmpty
  | Json.obj kvs => !kvs.isEmpty

/-- Model of Python `x or y` over possibly-missing JSON values (`none` is
Python `None`): the first operand if it is truthy, otherwise the second. -/
def pyOr (a b : Option Json) : Option Json :=
  match a with
  | some v => if v.truthy then some v else b
  | none => b

/-- Python `v == s` where `s` is a known `str`: only a string JSON value
can compare equal. -/
def jstrEq (v : Json) (s : String) : Bool :=
  match v with
  | Json.str t => t == s
  | _ => false

/-- Source `_direct_base_from_binary_id` (binja_mcp_client.py:137-158):
derive a direct Binary Ninja server base URL from a binary id of the form
`port_<digits>`, `<digits>` or a full URL; `if port:` makes a parsed port
of zero fall through to `None`. -/
def directBaseFromBinaryId (binaryId : String) : Option String :=
  let bid := pyStripList binaryId.data
  if beginsWith "http://".data bid || beginsWith "https://".data bid then
    some (dropTrailingSlashes (String.mk bid))
  else
    let port : Option Int :=
      if beginsWith "port_".data bid then pyParseIntList (lastSeg (splitOnCharList '_' bid))
      else if isdigitList bid then pyParseIntList bid
      else none
    match port with
    | some p => if p != 0 then some ("http://localhost:" ++ intToStr p) else none
    | none => none

/-- Source `obj.get("jsonrpc") == "2.0"`: the event declares a JSON-RPC 2.0
envelope. -/
def isJsonrpc2 (ev : Json) : Bool :=
  match ev.get "jsonrpc" with
  | some v => jstrEq v "2.0"
  | none => false

/-- Source `obj.get("id") == req_id` where `req_id` is a string: only a
string-valued `id` field can compare equal. -/
def idMatches (ev : Json) (rid : String) : Bool :=
  match ev.get "id" with
  | some (Json.str s) => s == rid
  | _ => false

/-- Source `if function_name and isinstance(val, str) and function_name not
in val: continue` — the hint rejects a candidate value exactly when the
hint is a truthy string, the value is a string, and the hint is not a
substring of it. -/
def hintSkips (hint : Option String) (v : Json) : Bool :=
  match hint, v with
  | some h, Json.str s => h != "" && !(pyIn h s)
  | _, _ => false

/-- Source key-extraction loop `for k in desired_keys: if k in payload and
isinstance(payload[k], (str, list)): ...` shared by both correlator waits:
return the first desired key whose value is a string passing the hint test
or any list (lists bypass the hint test, as in the source). -/
def extractKeys (keys : List String) (hint : Option String) (p : Json) : Option Json :=
  match keys with
  | [] => none
  | k :: rest =>
    match p.get k with
    | some (Json.str s) =>
      if hintSkips hint (Json.str s) then extractKeys rest hint p else some (Json.str s)
    | some (Json.arr xs) => some (Json.arr xs)
    | _ => extractKeys rest hint p

/-- Source `data_obj = payload.get("data") if isinstance(payload.get("data"),
dict) else None; if data_obj:` — the nested object is used only when it is
a dict and truthy (nonempty). -/
def dataObjOf (p : Json) : Option Json :=
  match p.get "data" with
  | some (Json.obj kvs) => if kvs.isEmpty then none else some (Json.obj kvs)
  | _ => none

/-- Key extraction from a result dict, then from its nonempty `data` dict,
as done in the JSON-RPC branch of `_sse_wait_for_id` and in the dict branch
of `_sse_wait_for`. -/
def extractKeysWithData (keys : List String) (hint : Option String) (p : Json) : Option Json :=
  match extractKeys keys hint p with
  | some v => some v
  | none =>
    match dataObjOf p with
    | some d => extractKeys keys hint d
    | none => none

/-- Matching of one buffered event inside `_sse_wait_for_id`
(binja_mcp_client.py:387-418).  First branch: a JSON-RPC 2.0 envelope whose
`id` equals the request id — extract from its `result` (dict: desired keys
with the hint test, then nested `data`; string or list result: returned
with no hint test).  If that branch does not return, the second branch
accepts any dict whose `id` equals the request id, takes `result` if
truthy else the event itself, and extracts desired keys with NO hint
test. -/
def matchEventForId (rid : String) (keys : List String) (hint : Option String)
    (ev : Json) : Option Json :=
  let branch1 : Option Json :=
    if isJsonrpc2 ev && idMatches ev rid then
      match ev.get "result" with
      | some (Json.obj kvs) => extractKeysWithData keys hint (Json.obj kvs)
      | some (Json.str s) => some (Json.str s)
      | some (Json.arr xs) => some (Json.arr xs)
      | _ => none
    else none
  match branch1 with
  | some v => some v
  | none =>
    if idMatches ev rid then
      match pyOr (ev.get "result") (some ev) with
      | some (Json.obj kvs) => extractKeys keys none (Json.obj kvs)
      | some (Json.str s) => some (Json.str s)
      | some (Json.arr xs) => some (Json.arr xs)
      | _ => none
    else none

/-- One scan pass of `_sse_wait_for_id` over the queued events: events with
timestamp at or before `lastChecked` are skipped (`if ts <= last_checked:
continue`), the rest are matched in arrival order. -/
def scanEventsForId (rid : String) (keys : List String) (hint : Option String)
    (lc : Nat) : List (Nat × Json) → Option Json
  | [] => none
  | (ts, ev) :: rest =>
    if ts ≤ lc then scanEventsForId rid keys hint lc rest
    else
      match matchEventForId rid keys hint ev with
      | some v => some v
      | none => scanEventsForId rid keys hint lc rest

/-- The waiting loop of `_sse_wait_for_id` (binja_mcp_client.py:381-422).
Each round models one iteration of the `while time.time() < end` loop: the
`now = time.time()` read at its start and the snapshot of `_sse_events`
scanned under the lock; after an unsuccessful scan `last_checked` becomes
that round's `now`.  The timeout governs only how many rounds occur, so it
is abstracted as the length of the round list; the bounded condition
variable wait (at most 1s per wake) sits between rounds. -/
def waitForIdLoop (rid : String) (keys : List String) (hint : Option String) :
    Nat → List (Nat × List (Nat × Json)) → Option Json
  | _, [] => none
  | lc, (now, buf) :: rest =>
    match scanEventsForId rid keys hint lc buf with
    | some v => some v
    | none => waitForIdLoop rid keys hint now rest

/-- Source `_sse_wait_for_id`: the loop starts with `last_checked = 0`, so
the first round scans every queued event regardless of arrival time. -/
def sseWaitForId (rid : String) (keys : List String) (hint : Option String)
    (rounds : List (Nat × List (Nat × Json))) : Option Json :=
  waitForIdLoop rid keys hint 0 rounds

/-- Source lines 347-349 of `_sse_wait_for`: unwrap the `result` of a
JSON-RPC 2.0 envelope that carries a `result` member; otherwise the event
itself is the payload. -/
def unwrapEnvelope (ev : Json) : Json :=
  match ev with
  | Json.obj kvs =>
    if (lookupStr kvs "result").isSome && isJsonrpc2 (Json.obj kvs) then
      (lookupStr kvs "result").getD Json.null
    else Json.obj kvs
  | _ => ev

/-- Source `method = payload.get("method") or payload.get("tool") or
payload.get("name") or payload.get("function")`. -/
def methodVal (p : Json) : Option Json :=
  pyOr (p.get "method") (pyOr (p.get "tool") (pyOr (p.get "name") (p.get "function")))

/-- Source `if expect_method and method and method != expect_method:
continue` — the event is rejected when the expected method is a truthy
string, the declared method is truthy, and the two differ (a non-string
declared method always differs from a string). -/
def methodMismatch (em : Option String) (p : Json) : Bool :=
  match em with
  | none => false
  | some m =>
    if m == "" then false
    else
      match methodVal p with
      | some v => v.truthy && !(jstrEq v m)
      | none => false

/-- Matching of one buffered event inside `_sse_wait_for`
(binja_mcp_client.py:344-369): unwrap a JSON-RPC envelope, reject on a
declared-method mismatch, extract desired keys (with the hint test) from
the payload dict and then from its nonempty `data` dict; a list payload
containing at least one string is returned as is. -/
def matchEventFor (em : Option String) (keys : List String) (hint : Option String)
    (ev : Json) : Option Json :=
  match unwrapEnvelope ev with
  | Json.obj kvs =>
    if methodMismatch em (Json.obj kvs) then none
    else extractKeysWithData keys hint (Json.obj kvs)
  | Json.arr xs =>
    if xs.any (fun x => match x with | Json.str _ => true | _ => false) then
      some (Json.arr xs)
    else none
  | _ => none

/-- One scan pass of `_sse_wait_for` over the queued events (same timestamp
filter as `scanEventsForId`). -/
def scanEventsFor (em : Option String) (keys : List String) (hint : Option String)
    (lc : Nat) : List (Nat × Json) → Option Json
  | [] => none
  | (ts, ev) :: rest =>
    if ts ≤ lc then scanEventsFor em keys hint lc rest
    else
      match matchEventFor em keys hint ev with
      | some v => some v
      | none => scanEventsFor em keys hint lc rest

/-- The waiting loop of `_sse_wait_for` (binja_mcp_client.py:339-373), with
rounds modelled exactly as in `waitForIdLoop`. -/
def waitForLoop (em : Option String) (keys : List String) (hint : Option String) :
    Nat → List (Nat × List (Nat × Json)) → Option Json
  | _, [] => none
  | lc, (now, buf) :: rest =>
    match scanEventsFor em keys hint lc buf with
    | some v => some v
    | none => waitForLoop em keys hint now rest

/-- Source `_sse_wait_for`: as in `_sse_wait_for_id` the loop starts with
`last_checked = 0`.  The `expect_params` argument of the source is ignored
by the matching code and is therefore not a parameter here. -/
def sseWaitFor (em : Option String) (keys : List String) (hint : Option String)
    (rounds : List (Nat × List (Nat × Json))) : Option Json :=
  waitForLoop em keys hint 0 rounds

/-- Source dataclass `BinaryInfo` (binja_mcp_client.py:23-29). -/
structure BinaryInfo where
  binary_id : String
  name : String
  architecture : String
  base_address : Int
deriving DecidableEq, Inhabited

/-- The mutable fields of `BinaryNinjaMCPClient` relevant to the claims
(binja_mcp_client.py:63-79): the configured base URL, the
`available_binaries` roster cache (a Python dict, modelled as an
insertion-ordered association list), and the SSE background-reader fields
`_sse_running` and "`_sse_thread` is set and alive".  `uuidCount` drives
the deterministic supply standing in for `uuid.uuid4()`: only freshness of
the generated ids matters to the code. -/
structure ClientState where
  baseUrl : Option String
  availableBinaries : List (String × BinaryInfo)
  sseRunning : Bool
  sseThreadAlive : Bool
  uuidCount : Nat
deriving DecidableEq

/-- One outbound HTTP request, as issued by the transport helpers.  The
exact URL text of path-based helpers is abstracted to (path, params); the
percent-encoding of `urllib.parse.urlencode` is not modelled (no claim
depends on URL syntax). -/
inductive Req where
  | getFull (url : String) : Req
  | postFull (url : String) (body : Json) : Req
  | bridgeJsonrpc (method : String) (params : Json) : Req
  | bridgeCall (method : String) (params : Json) : Req
  | getJson (path : String) (params : List (String × String)) : Req
  | getText (path : String) (params : List (String × String)) : Req

/-- The network boundary.  Each field gives the value the corresponding
transport helper returns (after its own internal error handling, which
converts failures to `None`): `_http_get_json_full`, `_http_post_json_full`,
`_http_get_json`, `_http_get_text`, `_bridge_call_jsonrpc` and
`_bridge_call`.  Bridge replies are modelled independent of the random
request id (the id only correlates the envelope).  `sseRoundsForId` and
`sseRoundsFor` supply the scan rounds (time and buffer snapshot) a
correlator wait observes, keyed by the request id / expected method; the
wait result itself is computed by the real `sseWaitForId` / `sseWaitFor`
models. -/
structure Oracle where
  getJsonFull : String → Option Json
  postJsonFull : String → Json → Option Json
  getJson : String → List (String × String) → Option Json
  getText : String → List (String × String) → Option String
  bridgeJsonrpc : String → Json → Option Json
  bridgeCall : String → Json → Option Json
  sseRoundsForId : String → List (Nat × List (Nat × Json))
  sseRoundsFor : String → List (Nat × List (Nat × Json))

/-- Source `_ensure_sse_background` (binja_mcp_client.py:180-188): no-op
without a base URL; no-op when the thread exists and is alive; otherwise
set `_sse_running = True` and start the daemon thread. -/
def ensureSseBackground (s : ClientState) : ClientState :=
  match s.baseUrl with
  | none => s
  | some _ => if s.sseThreadAlive then s else { s with sseRunning := true, sseThreadAlive := true }

/-- Source `_enqueue_event` appending into `deque(maxlen=500)`
(binja_mcp_client.py:77,190-193): append on the right; when the deque is
full the leftmost (oldest) entry is evicted. -/
def enqueueEvent (buf : List (Nat × Json)) (e : Nat × Json) : List (Nat × Json) :=
  if buf.length < 500 then buf ++ [e] else buf.tail ++ [e]

/-- Python `str(x)` for the JSON scalars this client stringifies.  The
rendering of list/dict containers is abbreviated: no claim exercises
`str()` on a container. -/
def pyStr : Json → String
  | Json.null => "None"
  | Json.bool b => if b then "True" else "False"
  | Json.num n => intToStr n
  | Json.str s => s
  | Json.arr _ => "<list>"
  | Json.obj _ => "<dict>"

/-- Python `int(x)` on a JSON value: ints pass through, strings are parsed,
bools coerce; anything else raises (modelled as `none`). -/
def pyToInt : Json → Option Int
  | Json.num n => some n
  | Json.str s => pyParseIntList s.data
  | Json.bool b => some (if b then 1 else 0)
  | _ => none

/-- Lookup in the `available_binaries` dict model. -/
def dictLookup : List (String × BinaryInfo) → String → Option BinaryInfo
  | [], _ => none
  | (k, v) :: rest, key =>
    match k == key with
    | true => some v
    | false => dictLookup rest key

/-- Python dict assignment `m[k] = v`: overwrite in place if the key
exists, else append (insertion order preserved). -/
def dictInsert (m : List (String × BinaryInfo)) (k : String) (v : BinaryInfo) :
    List (String × BinaryInfo) :=
  if m.any (fun p => p.1 == k) then
    m.map (fun p => match p.1 == k with | true => (k, v) | false => p)
  else m ++ [(k, v)]

/-- The hardcoded fallback roster of `list_binaries`
(binja_mcp_client.py:499-503). -/
def knownBinaries : List BinaryInfo :=
  [{ binary_id := "port_9009", name := "libimp.so (T31 v1.1.6)", architecture := "mips32", base_address := 0 },
   { binary_id := "port_9012", name := "libimp.so (T23)", architecture := "mips32", base_address := 0 },
   { binary_id := "port_9013", name := "tx-isp-t23.ko", architecture := "mips32", base_address := 0 }]

/-- Source `bid = it.get("id") or it.get("binary_id") or it.get("server_id")
or it.get("name")` used by the bridge and SSE roster parsers. -/
def serverIdChain (kvs : List (String × Json)) : Option Json :=
  pyOr (lookupStr kvs "id") (pyOr (lookupStr kvs "binary_id")
    (pyOr (lookupStr kvs "server_id") (lookupStr kvs "name")))

/-- Source `bid = it.get("id") or it.get("binary_id") or it.get("name")`
used by the REST roster parser (binja_mcp_client.py:485). -/
def serverIdChainRest (kvs : List (String × Json)) : Option Json :=
  pyOr (lookupStr kvs "id") (pyOr (lookupStr kvs "binary_id") (lookupStr kvs "name"))

/-- Parse of one roster item dict (binja_mcp_client.py:448-453): field
chains with Python `or` defaults, the `if bid:` truthiness gate, and
`int(base)` which can raise (`Except.error`) — the `int` conversion
happens only when `bid` is truthy, inside the `append` call. -/
def itemCore (bidChain : List (String × Json) → Option Json)
    (kvs : List (String × Json)) : Except Unit (Option BinaryInfo) :=
  let bid := bidChain kvs
  let nm := pyOr (lookupStr kvs "name") (pyOr (lookupStr kvs "title") bid)
  let ar := pyOr (lookupStr kvs "architecture") (pyOr (lookupStr kvs "arch") (some (Json.str "mips32")))
  let ba := pyOr (lookupStr kvs "base_address") (some (Json.num 0))
  match bid with
  | some v =>
    if v.truthy then
      match pyToInt (ba.getD (Json.num 0)) with
      | some n =>
        Except.ok (some { binary_id := pyStr v, name := pyStr (nm.getD Json.null),
                          architecture := pyStr (ar.getD Json.null), base_address := n })
      | none => Except.error ()
    else Except.ok none
  | none => Except.ok none

/-- Bridge-parser item (binja_mcp_client.py:447-453): `it.get` on a
non-dict raises `AttributeError`. -/
def itemToBinaryBridge (it : Json) : Except Unit (Option BinaryInfo) :=
  match it with
  | Json.obj kvs => itemCore serverIdChain kvs
  | _ => Except.error ()

/-- SSE-parser item (binja_mcp_client.py:466-473): guarded by
`isinstance(it, dict)`, so non-dicts are skipped, not raised on. -/
def itemToBinarySse (it : Json) : Except Unit (Option BinaryInfo) :=
  match it with
  | Json.obj kvs => itemCore serverIdChain kvs
  | _ => Except.ok none

/-- REST-parser item (binja_mcp_client.py:484-490): non-dicts raise. -/
def itemToBinaryRest (it : Json) : Except Unit (Option BinaryInfo) :=
  match it with
  | Json.obj kvs => itemCore serverIdChainRest kvs
  | _ => Except.error ()

/-- The `for it in candidate: ... servers.append(...)` loop with its
surrounding `try`: on an item that raises, the partial appends made so far
are kept (`servers` already grew) and the flag records that the parse
failed, so the `if servers: break` after the loop is not reached. -/
def parseItems (f : Json → Except Unit (Option BinaryInfo)) :
    List Json → List BinaryInfo → List BinaryInfo × Bool
  | [], acc => (acc, true)
  | it :: rest, acc =>
    match f it with
    | Except.error _ => (acc, false)
    | Except.ok none => parseItems f rest acc
    | Except.ok (some b) => parseItems f rest (acc ++ [b])

/-- The three bridge method aliases tried by `list_binaries`
(binja_mcp_client.py:438). -/
def lbMethods : List String :=
  ["list_binary_servers", "list_binja_servers", "list_binja_servers_smart-diff"]

/-- The REST endpoints tried by `list_binaries` (binja_mcp_client.py:480). -/
def lbRestEndpoints : List String := ["servers", "list_binja_servers", "api/servers"]

/-- The JSON-RPC attempt loop of `list_binaries`
(binja_mcp_client.py:438-459): per method, a JSON-RPC POST; if its reply is
falsy, a generic `_bridge_call` POST; a truthy list reply is parsed
(partial appends surviving a parse error), and the loop breaks only after
a parse that completed without raising left `servers` nonempty.  The fresh
uuid generated per attempt is not modelled: the oracle's reply is
id-independent and nothing else consumes it. -/
def lbBridgeLoop (o : Oracle) : List BinaryInfo → List String → List BinaryInfo × List Req
  | acc, [] => (acc, [])
  | acc, m :: ms =>
    let sync := o.bridgeJsonrpc m (Json.obj [])
    let cand : Option Json × List Req :=
      match sync with
      | some v =>
        if v.truthy then (some v, [])
        else (o.bridgeCall m (Json.obj []), [Req.bridgeCall m (Json.obj [])])
      | none => (o.bridgeCall m (Json.obj []), [Req.bridgeCall m (Json.obj [])])
    let tr0 := Req.bridgeJsonrpc m (Json.obj []) :: cand.2
    match cand.1 with
    | some (Json.arr its) =>
      if its.isEmpty then
        let r := lbBridgeLoop o acc ms
        (r.1, tr0 ++ r.2)
      else
        let pr := parseItems itemToBinaryBridge its acc
        if pr.2 && !pr.1.isEmpty then (pr.1, tr0)
        else
          let r := lbBridgeLoop o pr.1 ms
          (r.1, tr0 ++ r.2)
    | _ =>
      let r := lbBridgeLoop o acc ms
      (r.1, tr0 ++ r.2)

/-- The generic SSE scan loop of `list_binaries`
(binja_mcp_client.py:461-477), entered only while `servers` is empty.  The
`_ensure_sse_background` calls inside `_sse_wait_for` are no-ops after the
ensure at function entry (idempotence), so no state is threaded here. -/
def lbSseLoop (o : Oracle) : List BinaryInfo → List String → List BinaryInfo
  | acc, [] => acc
  | acc, m :: ms =>
    match sseWaitFor (some m) ["servers", "binaries", "list"] none (o.sseRoundsFor m) with
    | some (Json.arr its) =>
      if its.isEmpty then lbSseLoop o acc ms
      else
        let pr := parseItems itemToBinarySse its acc
        if pr.2 && !pr.1.isEmpty then pr.1 else lbSseLoop o pr.1 ms
    | _ => lbSseLoop o acc ms

/-- The REST fallback loop of `list_binaries` (binja_mcp_client.py:479-493):
on a truthy list reply the parse runs and — unlike the bridge loops — the
`break` after it is unconditional, so a parse that completes (even with
zero appends) ends the loop. -/
def lbRestLoop (o : Oracle) : List BinaryInfo → List String → List BinaryInfo × List Req
  | acc, [] => (acc, [])
  | acc, e :: es =>
    let tr0 := [Req.getJson e []]
    match o.getJson e [] with
    | some (Json.arr its) =>
      if its.isEmpty then
        let r := lbRestLoop o acc es
        (r.1, tr0 ++ r.2)
      else
        let pr := parseItems itemToBinaryRest its acc
        if pr.2 then (pr.1, tr0)
        else
          let r := lbRestLoop o pr.1 es
          (r.1, tr0 ++ r.2)
    | _ =>
      let r := lbRestLoop o acc es
      (r.1, tr0 ++ r.2)

/-- Python dict comprehension / insert loop over a server list, keying each
`BinaryInfo` by its `binary_id` (later duplicates overwrite earlier
ones). -/
def insertServers (m0 : List (String × BinaryInfo)) (sv : List BinaryInfo) :
    List (String × BinaryInfo) :=
  sv.foldl (fun m b => dictInsert m b.binary_id b) m0

/-- The tail of `list_binaries` (binja_mcp_client.py:494-506): a nonempty
`servers` list replaces the cache wholesale
(`self.available_binaries = {b.binary_id: b for b in servers}`); otherwise
the three known binaries are inserted into the existing cache and
returned. -/
def finalizeServers (s : ClientState) (sv : List BinaryInfo) : List BinaryInfo × ClientState :=
  if sv.isEmpty then
    (knownBinaries, { s with availableBinaries := insertServers s.availableBinaries knownBinaries })
  else (sv, { s with availableBinaries := insertServers [] sv })

/-- Source `list_binaries` (binja_mcp_client.py:425-506): ensure the SSE
reader, then bridge JSON-RPC attempts, then a generic SSE scan, then REST
endpoints, then the static fallback; the roster cache is updated from
whatever was obtained. -/
def listBinaries (o : Oracle) (s0 : ClientState) : List BinaryInfo × ClientState × List Req :=
  let s := ensureSseBackground s0
  match s.baseUrl with
  | none =>
    let fin := finalizeServers s []
    (fin.1, fin.2, [])
  | some _ =>
    let br := lbBridgeLoop o [] lbMethods
    let sv2 := if br.1.isEmpty then lbSseLoop o br.1 lbMethods else br.1
    let rr := if sv2.isEmpty then lbRestLoop o sv2 lbRestEndpoints else (sv2, [])
    let fin := finalizeServers s rr.1
    (fin.1, fin.2, br.2 ++ rr.2)

/-- The exact-match pass of `_resolve_binary_id`
(binja_mcp_client.py:127-129): first server whose id or name equals the
identifier wins, and its id is returned. -/
def findExact (bid : String) : List BinaryInfo → Option String
  | [] => none
  | b :: rest =>
    if b.binary_id == bid || b.name == bid then some b.binary_id else findExact bid rest

/-- The decision part of `_resolve_binary_id` once the roster is available
(binja_mcp_client.py:125-135): exact id/name match, then the
single-backend heuristic (stated twice in the source: once gated on a
`port_` prefix, once unconditionally), else the identifier unchanged. -/
def resolveFromServers (bid : String) (servers : List BinaryInfo) : String :=
  if servers.isEmpty then bid
  else
    match findExact bid servers with
    | some rid => rid
    | none =>
      if pyStartsWith "port_" bid && servers.length == 1 then (servers.headD default).binary_id
      else if servers.length == 1 then (servers.headD default).binary_id
      else bid

/-- Source `_resolve_binary_id` (binja_mcp_client.py:109-135): identity
without a base URL; identity when the identifier is already a cache key;
otherwise fetch the roster via `list_binaries` and decide. -/
def resolveBinaryId (o : Oracle) (s : ClientState) (bid : String) :
    String × ClientState × List Req :=
  match s.baseUrl with
  | none => (bid, s, [])
  | some _ =>
    if (dictLookup s.availableBinaries bid).isSome then (bid, s, [])
    else
      let r := listBinaries o s
      (resolveFromServers bid r.1, r.2.1, r.2.2)

/-- Query-string fragment for the direct decompile GET; percent-encoding
of `urlencode` is abstracted away. -/
def urlencodeName (fn : String) : String := "name=" ++ fn

/-- Source `code = sync_res.get("decompiled_code") or sync_res.get("code")
or sync_res.get("text")` (bridge-path key chain). -/
def chain3 (kvs : List (String × Json)) : Option Json :=
  pyOr (lookupStr kvs "decompiled_code") (pyOr (lookupStr kvs "code") (lookupStr kvs "text"))

/-- Source `code = obj.get("decompiled") or obj.get("decompiled_code") or
obj.get("code") or obj.get("text")` (direct-path key chain,
binja_mcp_client.py:556). -/
def chain4 (kvs : List (String × Json)) : Option Json :=
  pyOr (lookupStr kvs "decompiled") (chain3 kvs)

/-- Direct-path extraction (binja_mcp_client.py:555-558): a dict reply
whose four-way key chain yields a string with nonempty strip. -/
def extractDirectCode (r : Option Json) : Option String :=
  match r with
  | some (Json.obj kvs) =>
    match chain4 kvs with
    | some (Json.str s) => if stripNonempty s then some s else none
    | _ => none
  | _ => none

/-- Bridge-path extraction (binja_mcp_client.py:581-586 and the analogous
blocks for the SSE results): a string reply with nonempty strip is
returned as is; a dict reply goes through the three-way key chain, and a
truthy non-string value there is stringified with `str()`. -/
def codeFrom (r : Option Json) : Option String :=
  match r with
  | some (Json.str s) => if stripNonempty s then some s else none
  | some (Json.obj kvs) =>
    match chain3 kvs with
    | some v => if v.truthy && stripNonempty (pyStr v) then some (pyStr v) else none
    | none => none
  | _ => none

/-- The direct Binary Ninja server path of `decompile_function`
(binja_mcp_client.py:549-564): GET `<base>/decompile?name=<fn>`, then POST
`<base>/decompile` with a JSON body, each short-circuiting on a usable
code string. -/
def dfDirect (o : Oracle) (base fn : String) : Option String × List Req :=
  let url1 := base ++ "/decompile?" ++ urlencodeName fn
  let url2 := base ++ "/decompile"
  let body := Json.obj [("name", Json.str fn)]
  match extractDirectCode (o.getJsonFull url1) with
  | some c => (some c, [Req.getFull url1])
  | none =>
    match extractDirectCode (o.postJsonFull url2 body) with
    | some c => (some c, [Req.getFull url1, Req.postFull url2 body])
    | none => (none, [Req.getFull url1, Req.postFull url2 body])

/-- Deterministic stand-in for `str(uuid.uuid4())`: only freshness of the
generated id matters to the source. -/
def freshReqId (s : ClientState) : String × ClientState :=
  ("uuid-" ++ Nat.repr s.uuidCount, { s with uuidCount := s.uuidCount + 1 })

/-- The `tried_methods` alias table of `decompile_function`
(binja_mcp_client.py:571-576); note the last entry uses the key
`function`, not `function_name`. -/
def triedMethods (rid fn : String) : List (String × Json) :=
  [("decompile_binary_function_smart-diff",
    Json.obj [("binary_id", Json.str rid), ("function_name", Json.str fn)]),
   ("decompile_binary_function_smart_diff",
    Json.obj [("binary_id", Json.str rid), ("function_name", Json.str fn)]),
   ("decompile_binary_function",
    Json.obj [("binary_id", Json.str rid), ("function_name", Json.str fn)]),
   ("decompile",
    Json.obj [("binary_id", Json.str rid), ("function", Json.str fn)])]

/-- The per-method bridge attempt loop of `decompile_function`
(binja_mcp_client.py:577-609): JSON-RPC POST with a fresh id, then the
correlated SSE wait on that id, then a generic `_bridge_call` POST, then a
generic SSE method scan; each stage short-circuits on a usable code
string.  The waits run `_ensure_sse_background` themselves. -/
def dfBridgeLoop (o : Oracle) (fn : String) :
    ClientState → List (String × Json) → Option String × ClientState × List Req
  | s, [] => (none, s, [])
  | s, (m, ps) :: rest =>
    let fr := freshReqId s
    let s1 := fr.2
    let tj := [Req.bridgeJsonrpc m ps]
    match codeFrom (o.bridgeJsonrpc m ps) with
    | some c => (some c, s1, tj)
    | none =>
      let s2 := ensureSseBackground s1
      match codeFrom (sseWaitForId fr.1 ["decompiled_code", "code", "text"] (some fn)
          (o.sseRoundsForId fr.1)) with
      | some c => (some c, s2, tj)
      | none =>
        let tb := tj ++ [Req.bridgeCall m ps]
        match codeFrom (o.bridgeCall m ps) with
        | some c => (some c, s2, tb)
        | none =>
          let s3 := ensureSseBackground s2
          match codeFrom (sseWaitFor (some m) ["decompiled_code", "code", "text"] (some fn)
              (o.sseRoundsFor m)) with
          | some c => (some c, s3, tb)
          | none =>
            let r := dfBridgeLoop o fn s3 rest
            (r.1, r.2.1, tb ++ r.2.2)

/-- The REST fallback candidates of `decompile_function`
(binja_mcp_client.py:612-616); note they use the caller's raw
`binary_id`, not the resolved id. -/
def dfRestCandidates (bid fn : String) : List (String × List (String × String)) :=
  [("binaries/" ++ bid ++ "/decompile", [("function", fn)]),
   (bid ++ "/decompile", [("function", fn)]),
   ("decompile", [("binary_id", bid), ("function", fn)])]

/-- The REST fallback loop of `decompile_function`
(binja_mcp_client.py:617-620): first text reply with nonempty strip
wins. -/
def dfRestLoop (o : Oracle) : List (String × List (String × String)) → Option String × List Req
  | [] => (none, [])
  | (p, ps) :: rest =>
    let tr0 := [Req.getText p ps]
    match o.getText p ps with
    | some tx =>
      if stripNonempty tx then (some tx, tr0)
      else
        let r := dfRestLoop o rest
        (r.1, tr0 ++ r.2)
    | none =>
      let r := dfRestLoop o rest
      (r.1, tr0 ++ r.2)

/-- Source `decompile_function` (binja_mcp_client.py:537-621): FIRST
`_ensure_sse_background()` runs unconditionally, THEN the direct path is
tried, then (with a base URL) the resolver, the bridge attempt loop and
the REST fallback; otherwise `None`. -/
def decompileFunction (o : Oracle) (s0 : ClientState) (bid fn : String) :
    Option String × ClientState × List Req :=
  let s := ensureSseBackground s0
  let direct : Option String × List Req :=
    match directBaseFromBinaryId bid with
    | some base => dfDirect o base fn
    | none => (none, [])
  match direct.1 with
  | some c => (some c, s, direct.2)
  | none =>
    match s.baseUrl with
    | none => (none, s, direct.2)
    | some _ =>
      let rr := resolveBinaryId o s bid
      let br := dfBridgeLoop o fn rr.2.1 (triedMethods rr.1 fn)
      match br.1 with
      | some c => (some c, br.2.1, direct.2 ++ rr.2.2 ++ br.2.2)
      | none =>
        let rl := dfRestLoop o (dfRestCandidates bid fn)
        (rl.1, br.2.1, direct.2 ++ rr.2.2 ++ br.2.2 ++ rl.2)

/-- The static IMP function list of `list_functions`
(binja_mcp_client.py:719-733). -/
def impFunctions : List String :=
  ["IMP_System_Init", "IMP_System_Exit", "IMP_System_GetVersion", "IMP_System_Bind",
   "IMP_System_UnBind", "IMP_Encoder_CreateGroup", "IMP_Encoder_DestroyGroup",
   "IMP_Encoder_CreateChn", "IMP_Encoder_DestroyChn", "IMP_Encoder_RegisterChn",
   "IMP_Encoder_UnRegisterChn", "IMP_Encoder_StartRecvPic", "IMP_Encoder_StopRecvPic",
   "IMP_Encoder_Query", "IMP_Encoder_GetStream", "IMP_Encoder_ReleaseStream",
   "IMP_FrameSource_CreateChn", "IMP_FrameSource_DestroyChn", "IMP_FrameSource_SetChnAttr",
   "IMP_FrameSource_GetChnAttr", "IMP_FrameSource_EnableChn", "IMP_FrameSource_DisableChn",
   "IMP_FrameSource_SetFrameDepth", "IMP_FrameSource_GetFrameDepth", "IMP_ISP_Open",
   "IMP_ISP_Close", "IMP_ISP_AddSensor", "IMP_ISP_DelSensor", "IMP_ISP_EnableSensor",
   "IMP_ISP_DisableSensor", "IMP_ISP_SetSensorRegister", "IMP_ISP_GetSensorRegister",
   "IMP_ISP_Tuning_SetContrast", "IMP_ISP_Tuning_GetContrast", "IMP_ISP_Tuning_SetBrightness",
   "IMP_ISP_Tuning_GetBrightness", "IMP_ISP_Tuning_SetSaturation", "IMP_ISP_Tuning_GetSaturation",
   "IMP_ISP_Tuning_SetSharpness", "IMP_ISP_Tuning_GetSharpness", "IMP_OSD_CreateGroup",
   "IMP_OSD_DestroyGroup", "IMP_OSD_RegisterRgn", "IMP_OSD_UnRegisterRgn", "IMP_OSD_SetRgnAttr",
   "IMP_OSD_GetRgnAttr", "IMP_OSD_ShowRgn", "IMP_OSD_HideRgn", "IMP_IVS_CreateGroup",
   "IMP_IVS_DestroyGroup", "IMP_IVS_CreateChn", "IMP_IVS_DestroyChn", "IMP_IVS_RegisterChn",
   "IMP_IVS_UnRegisterChn", "IMP_IVS_StartRecvPic", "IMP_IVS_StopRecvPic",
   "IMP_IVS_PollingResult", "IMP_IVS_GetResult", "IMP_IVS_ReleaseResult"]

/-- The static fallback of `list_functions` with its optional
case-insensitive search filter (binja_mcp_client.py:734-736). -/
def staticImpList (search : Option String) : List String :=
  match search with
  | some q =>
    if q != "" then impFunctions.filter (fun f => pyIn (pyLower q) (pyLower f))
    else impFunctions
  | none => impFunctions

/-- The direct-path name comprehension of `list_functions`
(binja_mcp_client.py:641): `str(x.get("name") if isinstance(x, dict) else
x)` — never raises. -/
def lfDirectNames (xs : List Json) : List String :=
  xs.map (fun x =>
    match x with
    | Json.obj kvs => pyStr ((lookupStr kvs "name").getD Json.null)
    | other => pyStr other)

/-- The direct path of `list_functions` (binja_mcp_client.py:635-641). -/
def lfDirect (o : Oracle) (base : String) : Option (List String) × List Req :=
  let url := base ++ "/functions"
  match o.getJsonFull url with
  | some (Json.obj kvs) =>
    match pyOr (lookupStr kvs "functions") (pyOr (lookupStr kvs "methods") (lookupStr kvs "names")) with
    | some (Json.arr xs) => (some (lfDirectNames xs), [Req.getFull url])
    | _ => (none, [Req.getFull url])
  | _ => (none, [Req.getFull url])

/-- Source `str(x.get("name") or x.get("symbol") or x)`
(binja_mcp_client.py:652,656): raises on a non-dict item (uncaught in
`list_functions`). -/
def nameOfItem (x : Json) : Except Unit String :=
  match x with
  | Json.obj kvs =>
    Except.ok (pyStr ((pyOr (lookupStr kvs "name") (pyOr (lookupStr kvs "symbol") (some x))).getD Json.null))
  | _ => Except.error ()

/-- The raising name comprehension over a whole item list. -/
def namesOfItems : List Json → Except Unit (List String)
  | [] => Except.ok []
  | x :: xs =>
    match nameOfItem x with
    | Except.error _ => Except.error ()
    | Except.ok n =>
      match namesOfItems xs with
      | Except.error _ => Except.error ()
      | Except.ok ns => Except.ok (n :: ns)

/-- The tolerant name loop of `list_functions` (binja_mcp_client.py:660-668
and analogous blocks): strings pass through, dicts contribute a truthy
`name`/`symbol`, everything else is skipped. -/
def namesSkipping : List Json → List String
  | [] => []
  | x :: xs =>
    match x with
    | Json.str s => s :: namesSkipping xs
    | Json.obj kvs =>
      match pyOr (lookupStr kvs "name") (lookupStr kvs "symbol") with
      | some v => if v.truthy then pyStr v :: namesSkipping xs else namesSkipping xs
      | none => namesSkipping xs
    | _ => namesSkipping xs

/-- The bridge params of `list_functions`: `{"binary_id": resolved,
"search": search} if search else {"binary_id": resolved}`. -/
def lfParams (rid : String) (search : Option String) : Json :=
  match search with
  | some q =>
    if q != "" then Json.obj [("binary_id", Json.str rid), ("search", Json.str q)]
    else Json.obj [("binary_id", Json.str rid)]
  | none => Json.obj [("binary_id", Json.str rid)]

/-- The four bridge method aliases tried by `list_functions`
(binja_mcp_client.py:647). -/
def lfMethods : List String :=
  ["list_binary_functions_smart-diff", "list_binary_functions_smart_diff",
   "list_functions", "list_binary_functions"]

/-- Synchronous-reply handling of one `list_functions` JSON-RPC attempt
(binja_mcp_client.py:650-656): a list reply or a dict's `functions`/`names`
list goes through the RAISING comprehension and is returned even when
empty; anything else falls through to the SSE wait. -/
def lfSyncNames (sync : Option Json) : Except Unit (Option (List String)) :=
  match sync with
  | some (Json.arr xs) =>
    (match namesOfItems xs with
     | Except.error _ => Except.error ()
     | Except.ok ns => Except.ok (some ns))
  | some (Json.obj kvs) =>
    (match pyOr (lookupStr kvs "functions") (lookupStr kvs "names") with
     | some (Json.arr xs) =>
       (match namesOfItems xs with
        | Except.error _ => Except.error ()
        | Except.ok ns => Except.ok (some ns))
     | _ => Except.ok none)
  | _ => Except.ok none

/-- The JSON-RPC attempt loop of `list_functions`
(binja_mcp_client.py:646-669): per method, a JSON-RPC POST with a fresh
id, then the correlated SSE wait (whose tolerant name list is returned
only when nonempty).  `Except.error` propagates an uncaught Python
exception from the raising comprehension. -/
def lfJsonrpcLoop (o : Oracle) (ps : Json) :
    ClientState → List String → Except Unit (Option (List String)) × ClientState × List Req
  | s, [] => (Except.ok none, s, [])
  | s, m :: ms =>
    let fr := freshReqId s
    let s1 := fr.2
    let tj := [Req.bridgeJsonrpc m ps]
    match lfSyncNames (o.bridgeJsonrpc m ps) with
    | Except.error _ => (Except.error (), s1, tj)
    | Except.ok (some ns) => (Except.ok (some ns), s1, tj)
    | Except.ok none =>
      let s2 := ensureSseBackground s1
      match sseWaitForId fr.1 ["functions", "names", "symbols"] none (o.sseRoundsForId fr.1) with
      | some (Json.arr xs) =>
        let ns := namesSkipping xs
        if !ns.isEmpty then (Except.ok (some ns), s2, tj)
        else
          let r := lfJsonrpcLoop o ps s2 ms
          (r.1, r.2.1, tj ++ r.2.2)
      | _ =>
        let r := lfJsonrpcLoop o ps s2 ms
        (r.1, r.2.1, tj ++ r.2.2)

/-- The generic `_bridge_call` loop of `list_functions`
(binja_mcp_client.py:671-675): first truthy reply breaks; if none is
truthy the last reply is kept. -/
def lfBridgeCallRes (o : Oracle) (ps : Json) : List String → Option Json × List Req
  | [] => (none, [])
  | [m] => (o.bridgeCall m ps, [Req.bridgeCall m ps])
  | m :: ms =>
    let tr0 := [Req.bridgeCall m ps]
    match o.bridgeCall m ps with
    | some v =>
      if v.truthy then (some v, tr0)
      else
        let r := lfBridgeCallRes o ps ms
        (r.1, tr0 ++ r.2)
    | none =>
      let r := lfBridgeCallRes o ps ms
      (r.1, tr0 ++ r.2)

/-- The generic SSE scan loop of `list_functions`
(binja_mcp_client.py:687-700). -/
def lfSseLoop (o : Oracle) : ClientState → List String → Option (List String) × ClientState
  | s, [] => (none, s)
  | s, m :: ms =>
    let s1 := ensureSseBackground s
    match sseWaitFor (some m) ["functions", "names", "symbols"] none (o.sseRoundsFor m) with
    | some (Json.arr xs) =>
      let ns := namesSkipping xs
      if !ns.isEmpty then (some ns, s1) else lfSseLoop o s1 ms
    | _ => lfSseLoop o s1 ms

/-- The REST fallback loop of `list_functions`
(binja_mcp_client.py:701-716). -/
def lfRestLoop (o : Oracle) (prm : List (String × String)) :
    List String → Option (List String) × List Req
  | [] => (none, [])
  | p :: rest =>
    let tr0 := [Req.getJson p prm]
    match o.getJson p prm with
    | some (Json.arr xs) =>
      let ns := namesSkipping xs
      if !ns.isEmpty then (some ns, tr0)
      else
        let r := lfRestLoop o prm rest
        (r.1, tr0 ++ r.2)
    | _ =>
      let r := lfRestLoop o prm rest
      (r.1, tr0 ++ r.2)

/-- Source `list_functions` (binja_mcp_client.py:623-736): direct path
first (no SSE ensure at entry), then with a base URL the resolver, the
JSON-RPC loop, the generic bridge loop, the generic SSE scan and the REST
loop, and finally the static IMP list.  `Except.error` marks the uncaught
exception reachable through the raising comprehension. -/
def listFunctions (o : Oracle) (s0 : ClientState) (bid : String) (search : Option String) :
    Except Unit (List String) × ClientState × List Req :=
  let direct : Option (List String) × List Req :=
    match directBaseFromBinaryId bid with
    | some base => lfDirect o base
    | none => (none, [])
  match direct.1 with
  | some ns => (Except.ok ns, s0, direct.2)
  | none =>
    match s0.baseUrl with
    | none => (Except.ok (staticImpList search), s0, direct.2)
    | some _ =>
      let rr := resolveBinaryId o s0 bid
      let ps := lfParams rr.1 search
      let jl := lfJsonrpcLoop o ps rr.2.1 lfMethods
      match jl.1 with
      | Except.error _ => (Except.error (), jl.2.1, direct.2 ++ rr.2.2 ++ jl.2.2)
      | Except.ok (some ns) => (Except.ok ns, jl.2.1, direct.2 ++ rr.2.2 ++ jl.2.2)
      | Except.ok none =>
        let bc := lfBridgeCallRes o ps lfMethods
        let bcNames : Option (List String) :=
          match bc.1 with
          | some (Json.arr xs) =>
            let ns := namesSkipping xs
            if !ns.isEmpty then some ns else none
          | _ => none
        match bcNames with
        | some ns => (Except.ok ns, jl.2.1, direct.2 ++ rr.2.2 ++ jl.2.2 ++ bc.2)
        | none =>
          let sl := lfSseLoop o jl.2.1 lfMethods
          match sl.1 with
          | some ns => (Except.ok ns, sl.2, direct.2 ++ rr.2.2 ++ jl.2.2 ++ bc.2)
          | none =>
            let prm : List (String × String) :=
              match search with
              | some q => if q != "" then [("search", q)] else []
              | none => []
            let rl := lfRestLoop o prm ["binaries/" ++ bid ++ "/functions", bid ++ "/functions"]
            match rl.1 with
            | some ns => (Except.ok ns, sl.2, direct.2 ++ rr.2.2 ++ jl.2.2 ++ bc.2 ++ rl.2)
            | none =>
              (Except.ok (staticImpList search), sl.2, direct.2 ++ rr.2.2 ++ jl.2.2 ++ bc.2 ++ rl.2)

theorem matchEventForId_none_of_mismatch (rid : String) (keys : List String)
    (hint : Option String) (ev : Json) (h : idMatches ev rid = false) :
    matchEventForId rid keys hint ev = none := by
  simp [matchEventForId, h]

theorem scanEventsForId_filter_id (rid : String) (keys : List String)
    (hint : Option String) (lc : Nat) (evs : List (Nat × Json)) :
    scanEventsForId rid keys hint lc (evs.filter (fun e => idMatches e.2 rid)) =
      scanEventsForId rid keys hint lc evs := by
  induction evs with
  | nil => rfl
  | cons e rest ih =>
    obtain ⟨ts, ev⟩ := e
    by_cases hid : idMatches ev rid = true
    · simp only [List.filter_cons, hid, if_pos, scanEventsForId, ih]
    · have hid' : idMatches ev rid = false := by
        cases h : idMatches ev rid
        · rfl
        · exact absurd h hid
      simp only [List.filter_cons, hid']
      simp only [scanEventsForId, matchEventForId_none_of_mismatch rid keys hint ev hid']
      by_cases hts : ts ≤ lc
      · simp [hts, ih]
      · simp [hts, ih]

theorem waitForIdLoop_filter_id (rid : String) (keys : List String)
    (hint : Option String) (lc : Nat) (rounds : List (Nat × List (Nat × Json))) :
    waitForIdLoop rid keys hint lc
        (rounds.map (fun r => (r.1, r.2.filter (fun e => idMatches e.2 rid)))) =
      waitForIdLoop rid keys hint lc rounds := by
  induction rounds generalizing lc with
  | nil => rfl
  | cons r rest ih =>
    obtain ⟨now, buf⟩ := r
    simp only [List.map_cons, waitForIdLoop, scanEventsForId_filter_id, ih]

/-- C1.  No cross-talk in id correlation: the result of `_sse_wait_for_id`
for request id `rid` is unchanged when the buffered events are restricted
to exactly those whose `id` field equals `rid` — equivalently, adding or
removing events with a different (or missing, or non-string) `id` never
changes what the wait returns, in every round, for every buffer content,
every desired-key list and every hint. -/
theorem c1_wait_for_id_no_crosstalk (rid : String) (keys : List String)
    (hint : Option String) (rounds : List (Nat × List (Nat × Json))) :
    sseWaitForId rid keys hint
        (rounds.map (fun r => (r.1, r.2.filter (fun e => idMatches e.2 rid)))) =
      sseWaitForId rid keys hint rounds :=
  waitForIdLoop_filter_id rid keys hint 0 rounds

theorem enqueueEvent_length (buf : List (Nat × Json)) (e : Nat × Json)
    (h : buf.length ≤ 500) : (enqueueEvent buf e).length ≤ 500 := by
  unfold enqueueEvent
  by_cases hlt : buf.length < 500
  · simp [hlt]
    omega
  · have h500 : buf.length = 500 := by omega
    cases buf with
    | nil => simp at h500
    | cons x xs =>
      have hxs : xs.length = 499 := by
        simp only [List.length_cons] at h500
        omega
      simp [hlt, hxs]

theorem enqueueEvent_drop (buf : List (Nat × Json)) (e : Nat × Json)
    (h : buf.length ≤ 500) :
    enqueueEvent buf e = (buf ++ [e]).drop (buf.length + 1 - 500) := by
  unfold enqueueEvent
  by_cases hlt : buf.length < 500
  · have hz : buf.length + 1 - 500 = 0 := by omega
    simp [hlt, hz]
  · have h500 : buf.length = 500 := by omega
    cases buf with
    | nil => simp at h500
    | cons x xs =>
      have hxs : xs.length = 499 := by
        simp only [List.length_cons] at h500
        omega
      simp [hlt, hxs]

theorem foldl_enqueueEvent (es : List (Nat × Json)) :
    ∀ buf : List (Nat × Json), buf.length ≤ 500 →
      List.foldl enqueueEvent buf es = (buf ++ es).drop (buf.length + es.length - 500) := by
  induction es with
  | nil =>
    intro buf h
    simp only [List.foldl_nil, List.append_nil, List.length_nil, Nat.add_zero]
    rw [Nat.sub_eq_zero_of_le h, List.drop_zero]
  | cons e es ih =>
    intro buf h
    have hlen : (enqueueEvent buf e).length ≤ 500 := enqueueEvent_length buf e h
    have step := enqueueEvent_drop buf e h
    have hd1 : buf.length + 1 - 500 ≤ (buf ++ [e]).length := by
      simp only [List.length_append, List.length_cons, List.length_nil]
      omega
    rw [List.foldl_cons, ih _ hlen, step, List.length_drop,
      ← List.drop_append_of_le_length hd1, List.drop_drop]
    have hlist : (buf ++ [e]) ++ es = buf ++ e :: es := by simp
    rw [hlist]
    exact congrArg (fun n => List.drop n (buf ++ e :: es)) (by
      simp only [List.length_append, List.length_cons, List.length_nil]
      omega)

/-- The synthetic flood of 600 events, numbered 0..599 in arrival order. -/
def floodEvents : List (Nat × Json) := (List.range 600).map (fun i => (i, Json.num i))

set_option maxRecDepth 4000 in
/-- C4.  The SSE ring buffer: every `_enqueue_event` into a buffer holding
at most 500 events leaves at most 500 events; the new buffer is the
arrival-ordered suffix of `old ++ [new]` with exactly the single oldest
event dropped when the buffer was full; and flooding the empty buffer with
events 0..599 leaves exactly events 100..599 in order (0..99 evicted). -/
theorem c4_ring_buffer :
    (∀ (buf : List (Nat × Json)) (e : Nat × Json), buf.length ≤ 500 →
        (enqueueEvent buf e).length ≤ 500) ∧
    (∀ (buf : List (Nat × Json)) (e : Nat × Json), buf.length ≤ 500 →
        enqueueEvent buf e = (buf ++ [e]).drop (buf.length + 1 - 500)) ∧
    List.foldl enqueueEvent [] floodEvents = floodEvents.drop 100 := by
  refine ⟨enqueueEvent_length, enqueueEvent_drop, ?_⟩
  have hlen : floodEvents.length = 600 := by
    simp [floodEvents]
  have hmain := foldl_enqueueEvent floodEvents [] (by simp)
  simpa [hlen] using hmain

/-- Witness for C4 at a concrete input. -/
theorem c4_ring_buffer_witness :
    (enqueueEvent [] ((1 : Nat), Json.null)).length ≤ 500 ∧
    enqueueEvent [] ((1 : Nat), Json.null) =
      (([] : List (Nat × Json)) ++ [((1 : Nat), Json.null)]).drop
        ((([] : List (Nat × Json)).length) + 1 - 500) :=
  ⟨c4_ring_buffer.1 [] ((1 : Nat), Json.null) (by simp),
   c4_ring_buffer.2.1 [] ((1 : Nat), Json.null) (by simp)⟩

theorem digit_not_space (c : Char) (h : isDigitChar c = true) : isPySpace c = false := by
  simp only [isDigitChar, Bool.and_eq_true, decide_eq_true_eq] at h
  simp only [isPySpace, Bool.or_eq_false_iff, beq_eq_false_iff_ne, ne_eq]
  omega

theorem chEq_ne (a b : Char) (h : a.toNat ≠ b.toNat) : chEq a b = false := by
  simp only [chEq, beq_eq_false_iff_ne, ne_eq]
  exact h

theorem dropWhile_no (p : Char → Bool) (l : List Char) (h : ∀ c ∈ l, p c = false) :
    l.dropWhile p = l := by
  cases l with
  | nil => rfl
  | cons c rest =>
    have hc := h c (List.mem_cons_self c rest)
    simp [List.dropWhile_cons, hc]

theorem stripList_self (l : List Char) (h : ∀ c ∈ l, isPySpace c = false) :
    pyStripList l = l := by
  unfold pyStripList
  rw [dropWhile_no _ _ h, dropWhile_no _ _ (fun c hc => h c (List.mem_reverse.mp hc)),
    List.reverse_reverse]

theorem beginsWith_false_head (a : Char) (as : List Char) (c : Char) (rest : List Char)
    (h : chEq a c = false) : beginsWith (a :: as) (c :: rest) = false := by
  simp [beginsWith, h]

theorem split_digits (l : List Char) (h : ∀ c ∈ l, isDigitChar c = true) :
    splitOnCharList '_' l = [l] := by
  induction l with
  | nil => rfl
  | cons c rest ih =>
    have hb := h c (List.mem_cons_self c rest)
    simp only [isDigitChar, Bool.and_eq_true, decide_eq_true_eq] at hb
    have h95 : Char.toNat '_' = 95 := by decide
    have hc : chEq c '_' = false := by
      apply chEq_ne
      omega
    have ihh := ih (fun x hx => h x (List.mem_cons_of_mem c hx))
    simp [splitOnCharList, hc, ihh]

theorem parse_digits (l : List Char) (h1 : l ≠ []) (h2 : ∀ c ∈ l, isDigitChar c = true) :
    pyParseIntList l = some ((digitsToNat l : Int)) := by
  have hstrip : pyStripList l = l := stripList_self l (fun c hc => digit_not_space c (h2 c hc))
  cases l with
  | nil => exact absurd rfl h1
  | cons c rest =>
    have hb := h2 c (List.mem_cons_self c rest)
    simp only [isDigitChar, Bool.and_eq_true, decide_eq_true_eq] at hb
    have h45 : Char.toNat '-' = 45 := by decide
    have h43 : Char.toNat '+' = 43 := by decide
    have hminus : chEq c '-' = false := by
      apply chEq_ne
      omega
    have hplus : chEq c '+' = false := by
      apply chEq_ne
      omega
    have hall : (c :: rest).all isDigitChar = true := List.all_eq_true.mpr h2
    simp [pyParseIntList, hstrip, hminus, hplus, hall]

theorem intToStr_natCast (n : Nat) : intToStr (n : Int) = Nat.repr n := by
  unfold intToStr
  rw [if_neg (by omega)]
  simp

/-- C3 counterexample.  The claim fails as a universal statement: for the
digit string `0` (and for `port_0`) the source parses port `0`, the
`if port:` truthiness test fails, and `None` is returned instead of
`http://localhost:0`; and for digits with leading zeros such as `007` the
port is parsed numerically, so the produced URL drops the leading zeros
rather than reproducing the same digit sequence. -/
theorem c3_counterexample :
    directBaseFromBinaryId "port_0" = none ∧
    directBaseFromBinaryId "0" = none ∧
    directBaseFromBinaryId "007" = some "http://localhost:7" ∧
    "http://localhost:7" ≠ "http://localhost:007" :=
  ⟨rfl, rfl, rfl, by decide⟩

/-- C3 amended.  For every nonempty decimal-digit sequence `l`, both the
bare digits and `port_` followed by the digits resolve to
`http://localhost:<n>` where `n` is the numeric value of the digits
rendered canonically (leading zeros collapse) — provided that value is
nonzero; when the digits denote zero, both forms yield no direct base. -/
theorem c3_amended (l : List Char) (h1 : l ≠ []) (h2 : l.all isDigitChar = true) :
    (0 < digitsToNat l →
      directBaseFromBinaryId (String.mk l) =
          some ("http://localhost:" ++ Nat.repr (digitsToNat l)) ∧
      directBaseFromBinaryId (String.mk ('p' :: 'o' :: 'r' :: 't' :: '_' :: l)) =
          some ("http://localhost:" ++ Nat.repr (digitsToNat l))) ∧
    (digitsToNat l = 0 →
      directBaseFromBinaryId (String.mk l) = none ∧
      directBaseFromBinaryId (String.mk ('p' :: 'o' :: 'r' :: 't' :: '_' :: l)) = none) := by
  have h2' : ∀ c ∈ l, isDigitChar c = true := List.all_eq_true.mp h2
  have hstrip : pyStripList l = l := stripList_self l (fun c hc => digit_not_space c (h2' c hc))
  have hstripP : pyStripList ('p' :: 'o' :: 'r' :: 't' :: '_' :: l) =
      'p' :: 'o' :: 'r' :: 't' :: '_' :: l := by
    apply stripList_self
    intro c hc
    simp only [List.mem_cons] at hc
    rcases hc with h | h | h | h | h | h
    · subst h; decide
    · subst h; decide
    · subst h; decide
    · subst h; decide
    · subst h; decide
    · exact digit_not_space c (h2' c h)
  obtain ⟨c, rest, rfl⟩ : ∃ c rest, l = c :: rest := by
    cases l with
    | nil => exact absurd rfl h1
    | cons c rest => exact ⟨c, rest, rfl⟩
  have hb := h2' c (List.mem_cons_self c rest)
  simp only [isDigitChar, Bool.and_eq_true, decide_eq_true_eq] at hb
  have h104 : Char.toNat 'h' = 104 := by decide
  have h112 : Char.toNat 'p' = 112 := by decide
  have hch : chEq 'h' c = false := by
    apply chEq_ne
    omega
  have hcp : chEq 'p' c = false := by
    apply chEq_ne
    omega
  have hHttp : beginsWith "http://".data (c :: rest) = false := by
    rw [show "http://".data = 'h' :: "ttp://".data from rfl]
    exact beginsWith_false_head _ _ _ _ hch
  have hHttps : beginsWith "https://".data (c :: rest) = false := by
    rw [show "https://".data = 'h' :: "ttps://".data from rfl]
    exact beginsWith_false_head _ _ _ _ hch
  have hPort : beginsWith "port_".data (c :: rest) = false := by
    rw [show "port_".data = 'p' :: "ort_".data from rfl]
    exact beginsWith_false_head _ _ _ _ hcp
  have hHttpP : beginsWith "http://".data ('p' :: 'o' :: 'r' :: 't' :: '_' :: c :: rest) = false := by
    rw [show "http://".data = 'h' :: "ttp://".data from rfl]
    exact beginsWith_false_head _ _ _ _ (by decide)
  have hHttpsP : beginsWith "https://".data ('p' :: 'o' :: 'r' :: 't' :: '_' :: c :: rest) = false := by
    rw [show "https://".data = 'h' :: "ttps://".data from rfl]
    exact beginsWith_false_head _ _ _ _ (by decide)
  have hPortP : beginsWith "port_".data ('p' :: 'o' :: 'r' :: 't' :: '_' :: c :: rest) = true := by
    rw [show "port_".data = ['p', 'o', 'r', 't', '_'] from rfl]
    have e1 : chEq 'p' 'p' = true := by decide
    have e2 : chEq 'o' 'o' = true := by decide
    have e3 : chEq 'r' 'r' = true := by decide
    have e4 : chEq 't' 't' = true := by decide
    have e5 : chEq '_' '_' = true := by decide
    simp [beginsWith, e1, e2, e3, e4, e5]
  have hIsdig : isdigitList (c :: rest) = true := by
    simp [isdigitList, h2]
  have hSplit : splitOnCharList '_' ('p' :: 'o' :: 'r' :: 't' :: '_' :: c :: rest) =
      ['p', 'o', 'r', 't'] :: splitOnCharList '_' (c :: rest) := by
    have e5 : chEq '_' '_' = true := by decide
    have f1 : chEq 'p' '_' = false := by decide
    have f2 : chEq 'o' '_' = false := by decide
    have f3 : chEq 'r' '_' = false := by decide
    have f4 : chEq 't' '_' = false := by decide
    simp [splitOnCharList, e5, f1, f2, f3, f4]
  have hSplitD : splitOnCharList '_' (c :: rest) = [c :: rest] := split_digits _ h2'
  have hLast : lastSeg (['p', 'o', 'r', 't'] :: [c :: rest]) = c :: rest := by
    simp [lastSeg]
  have hParse : pyParseIntList (c :: rest) = some ((digitsToNat (c :: rest) : Int)) :=
    parse_digits _ h1 h2'
  have hData : (String.mk (c :: rest)).data = c :: rest := rfl
  have hDataP : (String.mk ('p' :: 'o' :: 'r' :: 't' :: '_' :: c :: rest)).data =
      'p' :: 'o' :: 'r' :: 't' :: '_' :: c :: rest := rfl
  constructor
  · intro hpos
    have hne : ((digitsToNat (c :: rest) : Int) != 0) = true := by
      simp only [bne_iff_ne, ne_eq, Int.natCast_eq_zero]
      omega
    constructor
    · simp only [directBaseFromBinaryId, hData, hstrip, hHttp, hHttps, Bool.or_self,
        Bool.false_eq_true, if_false, hPort, hIsdig, if_true, hParse, hne, intToStr_natCast]
    · simp only [directBaseFromBinaryId, hDataP, hstripP, hHttpP, hHttpsP, Bool.or_self,
        Bool.false_eq_true, if_false, hPortP, if_true, hSplit, hSplitD, hLast, hParse, hne,
        intToStr_natCast]
  · intro hzero
    have hne : ((digitsToNat (c :: rest) : Int) != 0) = false := by
      simp only [bne_eq_false_iff_eq, Int.natCast_eq_zero]
      exact hzero
    constructor
    · simp only [directBaseFromBinaryId, hData, hstrip, hHttp, hHttps, Bool.or_self,
        Bool.false_eq_true, if_false, hPort, hIsdig, if_true, hParse, hne]
    · simp only [directBaseFromBinaryId, hDataP, hstripP, hHttpP, hHttpsP, Bool.or_self,
        Bool.false_eq_true, if_false, hPortP, if_true, hSplit, hSplitD, hLast, hParse, hne]

/-- Witness for C3 amended at the digit string `9009`. -/
theorem c3_amended_witness :
    directBaseFromBinaryId (String.mk ['9', '0', '0', '9']) =
        some ("http://localhost:" ++ Nat.repr (digitsToNat ['9', '0', '0', '9'])) ∧
    directBaseFromBinaryId (String.mk ('p' :: 'o' :: 'r' :: 't' :: '_' :: ['9', '0', '0', '9'])) =
        some ("http://localhost:" ++ Nat.repr (digitsToNat ['9', '0', '0', '9'])) :=
  (c3_amended ['9', '0', '0', '9'] (by decide) (by decide)).1 (by decide)

/-- A JSON-RPC reply event used as counterexample input: envelope id `r1`,
result dict carrying `code`. -/
def evPreWait : Json :=
  Json.obj [("jsonrpc", Json.str "2.0"), ("id", Json.str "r1"),
            ("result", Json.obj [("code", Json.str "int f()")])]

/-- A method-tagged event used as counterexample input for `_sse_wait_for`. -/
def evMethodCode : Json :=
  Json.obj [("method", Json.str "decompile"), ("code", Json.str "pre-start payload")]

/-- C5 counterexample.  A wait that starts at time 10 over a buffer whose
only event arrived at time 5 — strictly before the wait began — still
returns that event's payload in its first scan, for both `_sse_wait_for_id`
and `_sse_wait_for`: the loops initialise `last_checked = 0`, not to the
waiter's start time, so the claim that pre-existing events never satisfy
the wait is false. -/
theorem c5_counterexample :
    sseWaitForId "r1" ["code"] none [(10, [(5, evPreWait)])] = some (Json.str "int f()") ∧
    sseWaitFor (some "decompile") ["code"] none [(10, [(5, evMethodCode)])] =
      some (Json.str "pre-start payload") ∧
    (5 : Nat) ≤ 10 :=
  ⟨rfl, rfl, by omega⟩

theorem scanEventsForId_skips_old (rid : String) (keys : List String) (hint : Option String)
    (lc : Nat) (evs : List (Nat × Json)) :
    scanEventsForId rid keys hint lc (evs.filter (fun e => lc < e.1)) =
      scanEventsForId rid keys hint lc evs := by
  induction evs with
  | nil => rfl
  | cons e rest ih =>
    obtain ⟨ts, ev⟩ := e
    by_cases hts : lc < ts
    · have hns : ¬ ts ≤ lc := by omega
      simp only [List.filter_cons]
      simp [hts, scanEventsForId, hns, ih]
    · have hle : ts ≤ lc := by omega
      simp only [List.filter_cons]
      simp [hts, scanEventsForId, hle, ih]

theorem scanEventsFor_skips_old (em : Option String) (keys : List String) (hint : Option String)
    (lc : Nat) (evs : List (Nat × Json)) :
    scanEventsFor em keys hint lc (evs.filter (fun e => lc < e.1)) =
      scanEventsFor em keys hint lc evs := by
  induction evs with
  | nil => rfl
  | cons e rest ih =>
    obtain ⟨ts, ev⟩ := e
    by_cases hts : lc < ts
    · have hns : ¬ ts ≤ lc := by omega
      simp only [List.filter_cons]
      simp [hts, scanEventsFor, hns, ih]
    · have hle : ts ≤ lc := by omega
      simp only [List.filter_cons]
      simp [hts, scanEventsFor, hle, ih]

/-- C5 amended.  What the loops actually do: the first round scans the
whole buffer — `last_checked` starts at `0`, not at the waiter's start
time, so events buffered before the wait began can be returned — and each
later round's scan considers exactly the events strictly newer than the
previous round's scan time (restricting a scan to those events changes
nothing).  This holds for both `_sse_wait_for_id` and `_sse_wait_for`; the
at-most-1-second wake slice is a real-time bound between rounds and is
abstracted into the round structure. -/
theorem c5_amended :
    (∀ (rid : String) (keys : List String) (hint : Option String) (t : Nat)
        (buf : List (Nat × Json)) (rest : List (Nat × List (Nat × Json))),
      sseWaitForId rid keys hint ((t, buf) :: rest) =
        match scanEventsForId rid keys hint 0 buf with
        | some v => some v
        | none => waitForIdLoop rid keys hint t rest) ∧
    (∀ (em : Option String) (keys : List String) (hint : Option String) (t : Nat)
        (buf : List (Nat × Json)) (rest : List (Nat × List (Nat × Json))),
      sseWaitFor em keys hint ((t, buf) :: rest) =
        match scanEventsFor em keys hint 0 buf with
        | some v => some v
        | none => waitForLoop em keys hint t rest) ∧
    (∀ (rid : String) (keys : List String) (hint : Option String) (lc : Nat)
        (evs : List (Nat × Json)),
      scanEventsForId rid keys hint lc (evs.filter (fun e => lc < e.1)) =
        scanEventsForId rid keys hint lc evs) ∧
    (∀ (em : Option String) (keys : List String) (hint : Option String) (lc : Nat)
        (evs : List (Nat × Json)),
      scanEventsFor em keys hint lc (evs.filter (fun e => lc < e.1)) =
        scanEventsFor em keys hint lc evs) :=
  ⟨fun _ _ _ _ _ _ => rfl, fun _ _ _ _ _ _ => rfl,
   scanEventsForId_skips_old, scanEventsFor_skips_old⟩

/-- A non-JSON-RPC event with matching id whose code value does not contain
the target hint. -/
def evHintMiss : Json :=
  Json.obj [("id", Json.str "r1"), ("result", Json.obj [("code", Json.str "other")])]

/-- C6 counterexample.  `_sse_wait_for_id` with target hint `target_fn`
returns the string `other`, which does not contain the hint: the
non-JSON-RPC id branch (source lines 410-418) extracts desired keys with
no hint test at all, so the claimed hint-containment guarantee fails for
`_sse_wait_for_id`. -/
theorem c6_counterexample :
    sseWaitForId "r1" ["code"] (some "target_fn") [(10, [(1, evHintMiss)])] =
      some (Json.str "other") ∧
    pyIn "target_fn" "other" = false :=
  ⟨rfl, rfl⟩

theorem pyIn_empty (s : String) : pyIn "" s = true := by
  unfold pyIn
  rw [show ("" : String).data = [] from rfl]
  cases s.data with
  | nil => rfl
  | cons c hs => simp [containsSeq, beginsWith]

theorem extractKeys_hint (keys : List String) (h : String) (p : Json) (s : String)
    (he : extractKeys keys (some h) p = some (Json.str s)) : pyIn h s = true := by
  induction keys with
  | nil => exact absurd he (by simp [extractKeys])
  | cons k rest ih =>
    rw [extractKeys] at he
    split at he
    · split at he
      · exact ih he
      · rename_i s0 hg hsk
        have hs0 : s0 = s := by
          injection he with h1
          injection h1
        subst hs0
        by_cases hh : h = ""
        · subst hh
          exact pyIn_empty s0
        · cases hpy : pyIn h s0 with
          | true => rfl
          | false =>
            exfalso
            have : hintSkips (some h) (Json.str s0) = true := by
              simp [hintSkips, hpy, hh]
            exact hsk this
    · exact absurd he (by simp)
    · exact ih he

theorem extractKeysWithData_hint (keys : List String) (h : String) (p : Json) (s : String)
    (he : extractKeysWithData keys (some h) p = some (Json.str s)) : pyIn h s = true := by
  rw [extractKeysWithData] at he
  split at he
  · rename_i v h1
    have hv : v = Json.str s := by injection he
    subst hv
    exact extractKeys_hint keys h p s h1
  · split at he
    · rename_i d h2
      exact extractKeys_hint keys h d s he
    · exact absurd he (by simp)

theorem matchEventFor_hint (em : Option String) (keys : List String) (h : String)
    (ev : Json) (s : String)
    (he : matchEventFor em keys (some h) ev = some (Json.str s)) : pyIn h s = true := by
  rw [matchEventFor] at he
  split at he
  · split at he
    · exact absurd he (by simp)
    · rename_i kvs hequ hcond
      exact extractKeysWithData_hint keys h (Json.obj kvs) s he
  · split at he
    · exact absurd he (by simp)
    · exact absurd he (by simp)
  · exact absurd he (by simp)

theorem scanEventsFor_hint (em : Option String) (keys : List String) (h : String)
    (lc : Nat) (evs : List (Nat × Json)) (s : String)
    (he : scanEventsFor em keys (some h) lc evs = some (Json.str s)) : pyIn h s = true := by
  induction evs with
  | nil => exact absurd he (by simp [scanEventsFor])
  | cons e rest ih =>
    obtain ⟨ts, ev⟩ := e
    rw [scanEventsFor] at he
    split at he
    · exact ih he
    · split at he
      · rename_i v hm
        have hv : v = Json.str s := by injection he
        subst hv
        exact matchEventFor_hint em keys h ev s hm
      · exact ih he

/-- C6 amended.  The hint-containment guarantee does hold for
`_sse_wait_for`: whenever that wait returns a string while a target hint is
supplied, the hint is a substring of the returned string (Python's
`"" in s` convention included).  It does NOT hold for `_sse_wait_for_id`
(see the counterexample): there the hint is tested only inside the
JSON-RPC envelope branch, and an event matched through the plain id branch
— or a string `result` payload — is returned with no hint test. -/
theorem c6_amended (em : Option String) (keys : List String) (h : String)
    (rounds : List (Nat × List (Nat × Json))) (s : String)
    (he : sseWaitFor em keys (some h) rounds = some (Json.str s)) : pyIn h s = true := by
  unfold sseWaitFor at he
  generalize hlc : (0 : Nat) = lc at he
  clear hlc
  induction rounds generalizing lc with
  | nil => exact absurd he (by simp [waitForLoop])
  | cons r rest ih =>
    obtain ⟨now, buf⟩ := r
    rw [waitForLoop] at he
    split at he
    · rename_i v hs2
      have hv : v = Json.str s := by injection he
      subst hv
      exact scanEventsFor_hint em keys h lc buf s hs2
    · exact ih now he

/-- An event whose code value does contain the hint, for the C6 witness. -/
def evHintHit : Json :=
  Json.obj [("method", Json.str "decompile"), ("code", Json.str "int target_fn(void)")]

/-- Witness for C6 amended at a concrete wait. -/
theorem c6_amended_witness : pyIn "target_fn" "int target_fn(void)" = true :=
  c6_amended (some "decompile") ["code"] "target_fn" [(10, [(1, evHintHit)])]
    "int target_fn(void)" rfl

/-- An oracle whose direct GET answers with a decompiled-code object and
whose every other transport fails. -/
def oDirectOk : Oracle :=
  { getJsonFull := fun _ => some (Json.obj [("decompiled_code", Json.str "int f(void) direct")]),
    postJsonFull := fun _ _ => none,
    getJson := fun _ _ => none,
    getText := fun _ _ => none,
    bridgeJsonrpc := fun _ _ => none,
    bridgeCall := fun _ _ => none,
    sseRoundsForId := fun _ => [],
    sseRoundsFor := fun _ => [] }

/-- An oracle on which every transport fails. -/
def oNone : Oracle :=
  { getJsonFull := fun _ => none,
    postJsonFull := fun _ _ => none,
    getJson := fun _ _ => none,
    getText := fun _ _ => none,
    bridgeJsonrpc := fun _ _ => none,
    bridgeCall := fun _ _ => none,
    sseRoundsForId := fun _ => [],
    sseRoundsFor := fun _ => [] }

/-- A client with a configured bridge base URL whose SSE reader has not
started yet. -/
def sIdleBridge : ClientState :=
  { baseUrl := some "http://bridge:8000", availableBinaries := [],
    sseRunning := false, sseThreadAlive := false, uuidCount := 0 }

/-- A client with no base URL configured (fully-offline mode). -/
def sOffline : ClientState :=
  { baseUrl := none, availableBinaries := [],
    sseRunning := false, sseThreadAlive := false, uuidCount := 0 }

/-- C2 counterexample.  With a base URL configured and the reader not yet
alive, a `decompile_function` call whose direct GET succeeds still flips
`_sse_running` (and starts the thread): `_ensure_sse_background()` is the
FIRST statement of `decompile_function`, before the direct path, so the
claim that the fields are left unchanged is false. -/
theorem c2_counterexample :
    (decompileFunction oDirectOk sIdleBridge "port_9009" "f").1 = some "int f(void) direct" ∧
    (decompileFunction oDirectOk sIdleBridge "port_9009" "f").2.1.sseRunning = true ∧
    (decompileFunction oDirectOk sIdleBridge "port_9009" "f").2.1.sseThreadAlive = true ∧
    sIdleBridge.sseRunning = false ∧ sIdleBridge.sseThreadAlive = false :=
  ⟨rfl, rfl, rfl, rfl, rfl⟩

/-- C2 amended.  When a direct base is derivable and the direct GET yields
a usable code string, `decompile_function` returns that string and issues
only the single direct GET — but its state is `ensureSseBackground` of the
entry state, because the Event Bus ensure runs first, unconditionally.
Consequently the SSE fields are unchanged exactly when no base URL is
configured; with a base URL configured and no live reader thread, the call
sets `_sse_running` and starts the thread even though the direct path then
short-circuits. -/
theorem c2_amended (o : Oracle) (s : ClientState) (bid fn base code : String)
    (hdb : directBaseFromBinaryId bid = some base)
    (hget : extractDirectCode (o.getJsonFull (base ++ "/decompile?" ++ urlencodeName fn)) =
      some code) :
    decompileFunction o s bid fn =
      (some code, ensureSseBackground s, [Req.getFull (base ++ "/decompile?" ++ urlencodeName fn)]) ∧
    (s.baseUrl = none → ensureSseBackground s = s) ∧
    (∀ u, s.baseUrl = some u → s.sseThreadAlive = false →
      (ensureSseBackground s).sseRunning = true ∧ (ensureSseBackground s).sseThreadAlive = true) := by
  refine ⟨?_, ?_, ?_⟩
  · simp only [decompileFunction, hdb, dfDirect, hget]
  · intro h
    simp [ensureSseBackground, h]
  · intro u h hth
    simp [ensureSseBackground, h, hth]

/-- Witness for C2 amended at a concrete oracle and state. -/
theorem c2_amended_witness :
    decompileFunction oDirectOk sIdleBridge "port_9009" "f" =
      (some "int f(void) direct", ensureSseBackground sIdleBridge,
       [Req.getFull ("http://localhost:9009" ++ "/decompile?" ++ urlencodeName "f")]) ∧
    (sIdleBridge.baseUrl = none → ensureSseBackground sIdleBridge = sIdleBridge) ∧
    (∀ u, sIdleBridge.baseUrl = some u → sIdleBridge.sseThreadAlive = false →
      (ensureSseBackground sIdleBridge).sseRunning = true ∧
      (ensureSseBackground sIdleBridge).sseThreadAlive = true) :=
  c2_amended oDirectOk sIdleBridge "port_9009" "f" "http://localhost:9009"
    "int f(void) direct" rfl rfl

/-- C9 counterexample.  With NO base URL configured, a port-like identifier
still triggers network traffic: `decompile_function("port_9009", ...)`
derives a direct base and issues a direct GET and a direct POST
(`_http_get_json_full`/`_http_post_json_full` never check `base_url`), so
"performs no network request at all" is false. -/
theorem c9_counterexample :
    (decompileFunction oNone sOffline "port_9009" "f").2.2 =
      [Req.getFull ("http://localhost:9009" ++ "/decompile?" ++ urlencodeName "f"),
       Req.postFull ("http://localhost:9009" ++ "/decompile") (Json.obj [("name", Json.str "f")])] ∧
    (decompileFunction oNone sOffline "port_9009" "f").2.2 ≠ [] := by
  refine ⟨rfl, ?_⟩
  intro hc
  rw [show (decompileFunction oNone sOffline "port_9009" "f").2.2 =
      [Req.getFull ("http://localhost:9009" ++ "/decompile?" ++ urlencodeName "f"),
       Req.postFull ("http://localhost:9009" ++ "/decompile") (Json.obj [("name", Json.str "f")])]
    from rfl] at hc
  exact absurd hc (List.cons_ne_nil _ _)

/-- C9 amended.  With no base URL configured, every bridge/SSE/REST
transport is skipped and no network request is issued by the branches this
covers: `decompile_function` returns `None` and `list_functions` the
static IMP list, each leaving the client state unchanged, for every
identifier from which no direct base is derivable; `list_binaries`
unconditionally returns the hardcoded known-binaries roster, its only
effect being to insert those three entries into `available_binaries`
(source lines 504-505).  Identifiers like `port_9009` or a full URL still
cause direct HTTP attempts; see the counterexample. -/
theorem c9_amended (o : Oracle) (s : ClientState) (hbase : s.baseUrl = none) :
    (∀ bid fn, directBaseFromBinaryId bid = none →
        decompileFunction o s bid fn = (none, s, [])) ∧
    (∀ bid search, directBaseFromBinaryId bid = none →
        listFunctions o s bid search = (Except.ok (staticImpList search), s, [])) ∧
    listBinaries o s =
      (knownBinaries,
       { s with availableBinaries := insertServers s.availableBinaries knownBinaries }, []) := by
  refine ⟨?_, ?_, ?_⟩
  · intro bid fn hdb
    simp only [decompileFunction, hdb, ensureSseBackground, hbase]
  · intro bid search hdb
    simp only [listFunctions, hdb, hbase]
  · simp only [listBinaries, ensureSseBackground, hbase, finalizeServers, List.isEmpty_nil,
      if_true]

/-- Witness for C9 amended at a concrete offline client. -/
theorem c9_amended_witness :
    decompileFunction oNone sOffline "libimp" "f" = (none, sOffline, []) ∧
    listFunctions oNone sOffline "libimp" none =
      (Except.ok (staticImpList none), sOffline, []) ∧
    listBinaries oNone sOffline =
      (knownBinaries,
       { sOffline with availableBinaries := insertServers sOffline.availableBinaries knownBinaries },
       []) :=
  ⟨(c9_amended oNone sOffline rfl).1 "libimp" "f" rfl,
   (c9_amended oNone sOffline rfl).2.1 "libimp" none rfl,
   (c9_amended oNone sOffline rfl).2.2⟩

theorem ensure_baseUrl (s : ClientState) : (ensureSseBackground s).baseUrl = s.baseUrl := by
  unfold ensureSseBackground
  cases hv : s.baseUrl with
  | none => exact hv
  | some u =>
    by_cases ht : s.sseThreadAlive = true
    · simpa [ht] using hv
    · simp [ht]

theorem finalize_baseUrl (s : ClientState) (sv : List BinaryInfo) :
    (finalizeServers s sv).2.baseUrl = s.baseUrl := by
  unfold finalizeServers
  split
  · rfl
  · rfl

theorem finalize_fst (s : ClientState) (sv : List BinaryInfo) :
    (finalizeServers s sv).1 = if sv.isEmpty then knownBinaries else sv := by
  unfold finalizeServers
  split
  · simp_all
  · simp_all

theorem listBinaries_shape (o : Oracle) (s : ClientState) :
    ∃ sv tr, listBinaries o s =
      ((finalizeServers (ensureSseBackground s) sv).1,
       (finalizeServers (ensureSseBackground s) sv).2, tr) := by
  unfold listBinaries
  dsimp only
  split
  · exact ⟨[], [], rfl⟩
  · exact ⟨_, _, rfl⟩

theorem listBinaries_baseUrl (o : Oracle) (s : ClientState) :
    (listBinaries o s).2.1.baseUrl = s.baseUrl := by
  obtain ⟨sv, tr, hshape⟩ := listBinaries_shape o s
  rw [hshape]
  exact (finalize_baseUrl _ _).trans (ensure_baseUrl s)

theorem listBinaries_fst_congr (o : Oracle) (s s' : ClientState)
    (h : s.baseUrl.isSome = s'.baseUrl.isSome) :
    (listBinaries o s).1 = (listBinaries o s').1 := by
  unfold listBinaries
  dsimp only
  rw [ensure_baseUrl, ensure_baseUrl]
  cases hv : s.baseUrl with
  | none =>
    cases hv' : s'.baseUrl with
    | none => simp only [finalize_fst]
    | some u' =>
      rw [hv, hv'] at h
      simp at h
  | some u =>
    cases hv' : s'.baseUrl with
    | none =>
      rw [hv, hv'] at h
      simp at h
    | some u' => simp only [finalize_fst]

/-- C7.  The single-backend heuristic of `_resolve_binary_id`: with a base
URL configured, the identifier not cached, a roster of exactly one backend,
and the identifier matching neither that backend's id nor its name, the
resolver returns the single backend's id. -/
theorem c7_single_backend (o : Oracle) (s : ClientState) (bid u : String) (b : BinaryInfo)
    (hbase : s.baseUrl = some u)
    (hnc : dictLookup s.availableBinaries bid = none)
    (hroster : (listBinaries o s).1 = [b])
    (hid : b.binary_id ≠ bid) (hname : b.name ≠ bid) :
    (resolveBinaryId o s bid).1 = b.binary_id := by
  simp only [resolveBinaryId, hbase, hnc, Option.isSome_none, Bool.false_eq_true, if_false,
    hroster, resolveFromServers, findExact]
  have hid' : (b.binary_id == bid) = false := by
    simp [hid]
  have hname' : (b.name == bid) = false := by
    simp [hname]
  simp only [hid', hname', Bool.or_self, Bool.false_eq_true, if_false]
  cases hps : pyStartsWith "port_" bid with
  | true => simp
  | false => simp

/-- The single backend returned by `oSingle`. -/
def binOne : BinaryInfo :=
  { binary_id := "bin1", name := "libimp-one", architecture := "mips32", base_address := 0 }

/-- An oracle whose bridge roster call returns exactly one backend. -/
def oSingle : Oracle :=
  { getJsonFull := fun _ => none,
    postJsonFull := fun _ _ => none,
    getJson := fun _ _ => none,
    getText := fun _ _ => none,
    bridgeJsonrpc := fun m _ =>
      if m == "list_binary_servers" then
        some (Json.arr [Json.obj [("id", Json.str "bin1"), ("name", Json.str "libimp-one"),
          ("architecture", Json.str "mips32"), ("base_address", Json.num 0)]])
      else none,
    bridgeCall := fun _ _ => none,
    sseRoundsForId := fun _ => [],
    sseRoundsFor := fun _ => [] }

/-- Witness for C7 at a concrete one-backend roster. -/
theorem c7_single_backend_witness :
    (resolveBinaryId oSingle sIdleBridge "port_9999").1 = binOne.binary_id :=
  c7_single_backend oSingle sIdleBridge "port_9999" "http://bridge:8000" binOne
    rfl rfl rfl (by decide) (by decide)

/-- C8 counterexample.  Resolving `port_9999` against a one-backend roster
returns `bin1`, but only `bin1` — not the caller's identifier — is left in
the cache; a second `_resolve_binary_id("port_9999")` therefore misses the
cache and issues the roster fetch again (its request trace is nonempty and
is the same bridge POST as the first fetch). -/
theorem c8_counterexample :
    (resolveBinaryId oSingle sIdleBridge "port_9999").1 = "bin1" ∧
    (resolveBinaryId oSingle
        (resolveBinaryId oSingle sIdleBridge "port_9999").2.1 "port_9999").2.2 =
      [Req.bridgeJsonrpc "list_binary_servers" (Json.obj [])] ∧
    (resolveBinaryId oSingle
        (resolveBinaryId oSingle sIdleBridge "port_9999").2.1 "port_9999").2.2 ≠ [] := by
  refine ⟨rfl, rfl, ?_⟩
  intro hc
  rw [show (resolveBinaryId oSingle
        (resolveBinaryId oSingle sIdleBridge "port_9999").2.1 "port_9999").2.2 =
      [Req.bridgeJsonrpc "list_binary_servers" (Json.obj [])] from rfl] at hc
  exact absurd hc (List.cons_ne_nil _ _)

theorem resolve_baseUrl (o : Oracle) (s : ClientState) (bid : String) :
    (resolveBinaryId o s bid).2.1.baseUrl = s.baseUrl := by
  unfold resolveBinaryId
  cases hv : s.baseUrl with
  | none => exact hv
  | some u =>
    by_cases hc : (dictLookup s.availableBinaries bid).isSome = true
    · simpa [hc] using hv
    · simp only [Bool.not_eq_true] at hc
      simp [hc, listBinaries_baseUrl, hv]

theorem lbBridgeLoop_trace_ne (o : Oracle) (acc : List BinaryInfo) (m : String)
    (ms : List String) : (lbBridgeLoop o acc (m :: ms)).2 ≠ [] := by
  simp only [lbBridgeLoop]
  split
  · split
    · simp
    · split
      · simp
      · simp
  · simp

theorem listBinaries_trace_ne (o : Oracle) (s : ClientState) (u : String)
    (hbase : s.baseUrl = some u) : (listBinaries o s).2.2 ≠ [] := by
  simp only [listBinaries, ensure_baseUrl, hbase]
  intro hc
  rcases List.append_eq_nil.mp hc with ⟨h1, _⟩
  exact lbBridgeLoop_trace_ne o [] "list_binary_servers"
    ["list_binja_servers", "list_binja_servers_smart-diff"] h1

/-- C8 amended.  After a first resolution of an uncached identifier (base
URL configured), a second resolution of the same identifier skips the
roster fetch only when the first call left that identifier itself as a
cache key (which happens exactly when it resolved by exact backend id);
it then returns the identifier with no requests.  When the identifier is
not a cache key — the name-match, single-backend-heuristic and
returned-as-is outcomes — the second call issues the roster fetch again
(nonempty request trace), though it computes the same resolved id as the
first call, the oracle being deterministic. -/
theorem c8_amended (o : Oracle) (s : ClientState) (bid u : String)
    (hbase : s.baseUrl = some u)
    (hnc : dictLookup s.availableBinaries bid = none) :
    ((dictLookup (resolveBinaryId o s bid).2.1.availableBinaries bid).isSome = true →
      resolveBinaryId o (resolveBinaryId o s bid).2.1 bid =
        (bid, (resolveBinaryId o s bid).2.1, [])) ∧
    ((dictLookup (resolveBinaryId o s bid).2.1.availableBinaries bid).isSome = false →
      (resolveBinaryId o (resolveBinaryId o s bid).2.1 bid).1 = (resolveBinaryId o s bid).1 ∧
      (resolveBinaryId o (resolveBinaryId o s bid).2.1 bid).2.2 ≠ []) := by
  set r1 := resolveBinaryId o s bid with hr1
  have hs1base : r1.2.1.baseUrl = some u := (resolve_baseUrl o s bid).trans hbase
  have hfirst : r1.1 = resolveFromServers bid (listBinaries o s).1 := by
    rw [hr1]
    simp [resolveBinaryId, hbase, hnc]
  constructor
  · intro hcache
    rw [show resolveBinaryId o r1.2.1 bid =
        (match r1.2.1.baseUrl with
         | none => (bid, r1.2.1, [])
         | some _ =>
           if (dictLookup r1.2.1.availableBinaries bid).isSome = true then (bid, r1.2.1, [])
           else
             (resolveFromServers bid (listBinaries o r1.2.1).1, (listBinaries o r1.2.1).2.1,
              (listBinaries o r1.2.1).2.2)) from rfl]
    rw [hs1base]
    rw [if_pos hcache]
  · intro hnc2
    have hstep : resolveBinaryId o r1.2.1 bid =
        (resolveFromServers bid (listBinaries o r1.2.1).1, (listBinaries o r1.2.1).2.1,
         (listBinaries o r1.2.1).2.2) := by
      rw [show resolveBinaryId o r1.2.1 bid =
          (match r1.2.1.baseUrl with
           | none => (bid, r1.2.1, [])
           | some _ =>
             if (dictLookup r1.2.1.availableBinaries bid).isSome = true then (bid, r1.2.1, [])
             else
               (resolveFromServers bid (listBinaries o r1.2.1).1, (listBinaries o r1.2.1).2.1,
                (listBinaries o r1.2.1).2.2)) from rfl]
      rw [hs1base]
      rw [if_neg (by simp [hnc2])]
    refine ⟨?_, ?_⟩
    · rw [hstep, hfirst]
      exact congrArg (resolveFromServers bid)
        (listBinaries_fst_congr o r1.2.1 s (by rw [hs1base, hbase]))
    · rw [hstep]
      exact listBinaries_trace_ne o r1.2.1 u hs1base

/-- Witness for C8 amended at the concrete one-backend roster. -/
theorem c8_amended_witness :
    (resolveBinaryId oSingle
        (resolveBinaryId oSingle sIdleBridge "port_9999").2.1 "port_9999").1 =
      (resolveBinaryId oSingle sIdleBridge "port_9999").1 ∧
    (resolveBinaryId oSingle
        (resolveBinaryId oSingle sIdleBridge "port_9999").2.1 "port_9999").2.2 ≠ [] :=
  (c8_amended oSingle sIdleBridge "port_9999" "http://bridge:8000" rfl rfl).2 rfl

theorem lookup_map_other (m : List (String × BinaryInfo)) (k k' : String) (v : BinaryInfo)
    (h : (k == k') = false) :
    dictLookup (m.map (fun p => match p.1 == k with | true => (k, v) | false => p)) k' =
      dictLookup m k' := by
  induction m with
  | nil => rfl
  | cons p rest ih =>
    obtain ⟨k0, v0⟩ := p
    cases h0 : (k0 == k) with
    | true =>
      have hk0 : k0 = k := eq_of_beq h0
      subst hk0
      simp [dictLookup, h, ih]
    | false =>
      simp [dictLookup, h0, ih]

theorem lookup_map_self (m : List (String × BinaryInfo)) (k : String) (v : BinaryInfo)
    (h : m.any (fun p => p.1 == k) = true) :
    dictLookup (m.map (fun p => match p.1 == k with | true => (k, v) | false => p)) k =
      some v := by
  induction m with
  | nil => simp at h
  | cons p rest ih =>
    obtain ⟨k0, v0⟩ := p
    cases h0 : (k0 == k) with
    | true =>
      have hk0 : k0 = k := eq_of_beq h0
      subst hk0
      simp [dictLookup]
    | false =>
      have hrest : rest.any (fun p => p.1 == k) = true := by
        simp only [List.any_cons] at h
        rcases Bool.or_eq_true_iff.mp h with hh | hh
        · exact absurd hh (by simp [h0])
        · exact hh
      simp [dictLookup, h0, ih hrest]

theorem lookup_append_self (m : List (String × BinaryInfo)) (k : String) (v : BinaryInfo)
    (h : m.any (fun p => p.1 == k) = false) :
    dictLookup (m ++ [(k, v)]) k = some v := by
  induction m with
  | nil => simp [dictLookup]
  | cons p rest ih =>
    obtain ⟨k0, v0⟩ := p
    simp only [List.any_cons, Bool.or_eq_false_iff] at h
    simp [dictLookup, h.1, ih h.2]

theorem lookup_append_other (m : List (String × BinaryInfo)) (k k' : String) (v : BinaryInfo)
    (h : (k == k') = false) :
    dictLookup (m ++ [(k, v)]) k' = dictLookup m k' := by
  induction m with
  | nil => simp [dictLookup, h]
  | cons p rest ih =>
    obtain ⟨k0, v0⟩ := p
    cases h0 : (k0 == k') with
    | true => simp [dictLookup, h0]
    | false => simp [dictLookup, h0, ih]

theorem dictLookup_insert_self (m : List (String × BinaryInfo)) (k : String) (v : BinaryInfo) :
    dictLookup (dictInsert m k v) k = some v := by
  unfold dictInsert
  by_cases ha : m.any (fun p => p.1 == k) = true
  · simp only [ha, if_true]
    exact lookup_map_self m k v ha
  · have ha' : m.any (fun p => p.1 == k) = false := by
      cases hx : m.any (fun p => p.1 == k)
      · rfl
      · exact absurd hx ha
    simp only [ha', Bool.false_eq_true, if_false]
    exact lookup_append_self m k v ha'

theorem dictLookup_insert_other (m : List (String × BinaryInfo)) (k k' : String)
    (v : BinaryInfo) (h : (k == k') = false) :
    dictLookup (dictInsert m k v) k' = dictLookup m k' := by
  unfold dictInsert
  by_cases ha : m.any (fun p => p.1 == k) = true
  · simp only [ha, if_true]
    exact lookup_map_other m k k' v h
  · have ha' : m.any (fun p => p.1 == k) = false := by
      cases hx : m.any (fun p => p.1 == k)
      · rfl
      · exact absurd hx ha
    simp only [ha', Bool.false_eq_true, if_false]
    exact lookup_append_other m k k' v h

theorem dictLookup_insert_isSome (m : List (String × BinaryInfo)) (k k' : String)
    (v : BinaryInfo) (h : (dictLookup m k').isSome = true) :
    (dictLookup (dictInsert m k v) k').isSome = true := by
  by_cases hk : k' = k
  · subst hk
    rw [dictLookup_insert_self]
    rfl
  · rw [dictLookup_insert_other m k k' v (by simp [Ne.symm hk])]
    exact h

theorem insertServers_pres (sv : List BinaryInfo) :
    ∀ (m : List (String × BinaryInfo)) (k : String),
      (dictLookup m k).isSome = true → (dictLookup (insertServers m sv) k).isSome = true := by
  induction sv with
  | nil => exact fun m k h => h
  | cons b tl ih =>
    intro m k h
    exact ih (dictInsert m b.binary_id b) k (dictLookup_insert_isSome m b.binary_id k b h)

theorem insertServers_mem (b : BinaryInfo) :
    ∀ (sv : List BinaryInfo) (m : List (String × BinaryInfo)), b ∈ sv →
      (dictLookup (insertServers m sv) b.binary_id).isSome = true := by
  intro sv
  induction sv with
  | nil =>
    intro m hb
    cases hb
  | cons hd tl ih =>
    intro m hb
    rcases List.mem_cons.mp hb with rfl | hmem
    · exact insertServers_pres tl (dictInsert m b.binary_id b) b.binary_id
        (by rw [dictLookup_insert_self]; rfl)
    · exact ih (dictInsert m hd.binary_id hd) hmem

theorem insertServers_untouched (sv : List BinaryInfo) :
    ∀ (m : List (String × BinaryInfo)) (k : String),
      (∀ x ∈ sv, (x.binary_id == k) = false) →
      dictLookup (insertServers m sv) k = dictLookup m k := by
  induction sv with
  | nil => exact fun m k _ => rfl
  | cons hd tl ih =>
    intro m k h
    rw [show insertServers m (hd :: tl) = insertServers (dictInsert m hd.binary_id hd) tl
      from rfl]
    rw [ih (dictInsert m hd.binary_id hd) k (fun x hx => h x (List.mem_cons_of_mem hd hx))]
    exact dictLookup_insert_other m hd.binary_id k hd (h hd (List.mem_cons_self hd tl))

theorem insertServers_nodup (b : BinaryInfo) :
    ∀ (sv : List BinaryInfo) (m : List (String × BinaryInfo)), b ∈ sv →
      (sv.map (fun x => x.binary_id)).Nodup →
      dictLookup (insertServers m sv) b.binary_id = some b := by
  intro sv
  induction sv with
  | nil =>
    intro m hb
    cases hb
  | cons hd tl ih =>
    intro m hb hnd
    rw [List.map_cons] at hnd
    have hnd2 := List.nodup_cons.mp hnd
    rcases List.mem_cons.mp hb with rfl | hmem
    · rw [show insertServers m (b :: tl) = insertServers (dictInsert m b.binary_id b) tl
        from rfl]
      rw [insertServers_untouched tl (dictInsert m b.binary_id b) b.binary_id ?_]
      · exact dictLookup_insert_self m b.binary_id b
      · intro x hx
        have hne : x.binary_id ≠ b.binary_id := by
          intro hEq
          exact hnd2.1 (hEq ▸ List.mem_map_of_mem (fun y => y.binary_id) hx)
        simp [hne]
    · exact ih (dictInsert m hd.binary_id hd) hmem hnd2.2

theorem finalize_avail (s : ClientState) (sv : List BinaryInfo) :
    ∃ m0, (finalizeServers s sv).2.availableBinaries =
      insertServers m0 ((finalizeServers s sv).1) := by
  unfold finalizeServers
  split
  · exact ⟨s.availableBinaries, rfl⟩
  · exact ⟨[], rfl⟩

/-- The two duplicate-id backends of the C10 counterexample. -/
def dupA : BinaryInfo :=
  { binary_id := "dup", name := "A", architecture := "mips32", base_address := 0 }

/-- See `dupA`. -/
def dupB : BinaryInfo :=
  { binary_id := "dup", name := "B", architecture := "mips32", base_address := 0 }

/-- An oracle whose roster reply carries two backends sharing one id. -/
def oDup : Oracle :=
  { getJsonFull := fun _ => none,
    postJsonFull := fun _ _ => none,
    getJson := fun _ _ => none,
    getText := fun _ _ => none,
    bridgeJsonrpc := fun m _ =>
      if m == "list_binary_servers" then
        some (Json.arr [Json.obj [("id", Json.str "dup"), ("name", Json.str "A")],
                        Json.obj [("id", Json.str "dup"), ("name", Json.str "B")]])
      else none,
    bridgeCall := fun _ _ => none,
    sseRoundsForId := fun _ => [],
    sseRoundsFor := fun _ => [] }

/-- C10 counterexample.  When the transport returns two roster entries
sharing a `binary_id`, the dict comprehension keeps only the later one:
the earlier element of the returned list is NOT mapped to by its key, so
the claim that every element of the returned list is cached "mapping to
that BinaryInfo" fails. -/
theorem c10_counterexample :
    (listBinaries oDup sIdleBridge).1 = [dupA, dupB] ∧
    dupA ∈ (listBinaries oDup sIdleBridge).1 ∧
    dictLookup (listBinaries oDup sIdleBridge).2.1.availableBinaries dupA.binary_id =
      some dupB ∧
    some dupB ≠ some dupA := by
  refine ⟨rfl, ?_, rfl, by decide⟩
  rw [show (listBinaries oDup sIdleBridge).1 = [dupA, dupB] from rfl]
  exact List.mem_cons_self dupA [dupB]

/-- C10 amended.  After every `list_binaries` call, each element of the
returned list has its `binary_id` present as a key of
`available_binaries`; and whenever the returned ids are pairwise distinct
(the realistic roster shape) the key maps to that very element.  This
holds on the live path (wholesale cache replacement) and on the static
fallback path (the three known entries are inserted into the existing
cache) alike; with duplicate ids the key maps to the LAST element bearing
it (see the counterexample). -/
theorem c10_amended (o : Oracle) (s : ClientState) (b : BinaryInfo)
    (hb : b ∈ (listBinaries o s).1) :
    (dictLookup (listBinaries o s).2.1.availableBinaries b.binary_id).isSome = true ∧
    (((listBinaries o s).1.map (fun x => x.binary_id)).Nodup →
      dictLookup (listBinaries o s).2.1.availableBinaries b.binary_id = some b) := by
  obtain ⟨sv, tr, hshape⟩ := listBinaries_shape o s
  rw [hshape] at hb ⊢
  obtain ⟨m0, hm0⟩ := finalize_avail (ensureSseBackground s) sv
  rw [hm0]
  exact ⟨insertServers_mem b _ m0 hb, fun hnd => insertServers_nodup b _ m0 hb hnd⟩

/-- Witness for C10 amended: the offline static-fallback roster caches the
first known binary under its own id. -/
theorem c10_amended_witness :
    (dictLookup (listBinaries oNone sOffline).2.1.availableBinaries
        "port_9009").isSome = true ∧
    dictLookup (listBinaries oNone sOffline).2.1.availableBinaries "port_9009" =
      some { binary_id := "port_9009", name := "libimp.so (T31 v1.1.6)",
             architecture := "mips32", base_address := 0 } := by
  have h := c10_amended oNone sOffline
    { binary_id := "port_9009", name := "libimp.so (T31 v1.1.6)",
      architecture := "mips32", base_address := 0 } (by decide)
  exact ⟨h.1, h.2 (by decide)⟩
